import Mathlib

/-!
Verification of the telemetry-js publisher-cloudwatch core: a shallow
embedding in Lean 4 of the request builder (src/lib/req-builder.js) and the
request signer (req-signer.js), with theorems settling the specification
claims about batching, splitting, retry classification, signing and
credential refresh.

Modelling conventions:
* JavaScript strings are Lean `String`s (lists of unicode scalar values);
  `Buffer.byteLength` is the UTF-8 byte count `utf8Len`.
* JavaScript numbers that the code only renders with `toString` or compares
  to zero are modelled as `Int`.
* Mutable objects become explicit state records; a method that can `throw`
  returns `Except (String × State) State`, the error carrying the state as
  mutated up to the throw (JavaScript exceptions do not roll back
  assignments already performed).
* The SHA-256 HMAC and hash primitives of the signer are external
  (node crypto); signer definitions take them as function parameters, so
  every theorem about the signer holds for the real primitives.
-/

set_option maxRecDepth 100000

namespace CW

/-! ## UTF-8 byte length (Buffer.byteLength) -/

def utf8Len (s : String) : Nat :=
  (s.data.map Char.utf8Size).sum

theorem utf8Len_append (a b : String) : utf8Len (a ++ b) = utf8Len a + utf8Len b := by
  simp [utf8Len, String.data_append]

/-! ## Percent encoding

`esc` is node `querystring.escape`: characters in the unreserved set
`A-Z a-z 0-9 - _ . ! ~ * ' ( )` pass through, every other character is
percent-encoded byte-wise (UTF-8, uppercase hex).  `encodeRfc3986` then
forces `! ' ( ) *` to their percent forms, as in both source files. -/

def hexDigit (n : Nat) : Char :=
  if n < 10 then Char.ofNat (48 + n) else Char.ofNat (55 + n)

def percentByte (b : Nat) : List Char :=
  ['%', hexDigit (b / 16), hexDigit (b % 16)]

def utf8Bytes (n : Nat) : List Nat :=
  if n < 0x80 then [n]
  else if n < 0x800 then [0xC0 + n / 0x40, 0x80 + n % 0x40]
  else if n < 0x10000 then
    [0xE0 + n / 0x1000, 0x80 + (n / 0x40) % 0x40, 0x80 + n % 0x40]
  else
    [0xF0 + n / 0x40000, 0x80 + (n / 0x1000) % 0x40, 0x80 + (n / 0x40) % 0x40, 0x80 + n % 0x40]

def escUnreserved (c : Char) : Bool :=
  (('A' ≤ c && c ≤ 'Z') || ('a' ≤ c && c ≤ 'z') || ('0' ≤ c && c ≤ '9') ||
    c = '-' || c = '_' || c = '.' || c = '!' || c = '~' || c = '*' ||
    c = '\'' || c = '(' || c = ')')

def esc (s : String) : String :=
  String.mk (s.data.flatMap fun c =>
    if escUnreserved c then [c] else (utf8Bytes c.toNat).flatMap percentByte)

def encodeRfc3986 (urlEncodedString : String) : String :=
  String.mk (urlEncodedString.data.flatMap fun c =>
    if c = '!' then ['%', '2', '1']
    else if c = '\'' then ['%', '2', '7']
    else if c = '(' then ['%', '2', '8']
    else if c = ')' then ['%', '2', '9']
    else if c = '*' then ['%', '2', 'A']
    else [c])

/-- `encodeKeyValue` of req-builder.js; the empty-key throw is surfaced by
the caller-level functions, see `addDatumKeyValue`. -/
def encodeKeyValue (key value : String) : String :=
  key ++ "=" ++ encodeRfc3986 (esc value)

/-! ## Timestamp formatting -/

/-- The regex replace stripping milliseconds from an ISO timestamp:
`date.toISOString().replace(millisPattern, upperZ)` where the pattern is a
dot, three digits and a final Z. -/
def stripMillis (s : String) : String :=
  let cs := s.data
  if 5 ≤ cs.length then
    let tail := cs.drop (cs.length - 5)
    match tail with
    | ['.', a, b, c, 'Z'] =>
      if a.isDigit && b.isDigit && c.isDigit then
        String.mk (cs.take (cs.length - 5) ++ ['Z'])
      else s
    | _ => s
  else s

/-! ## Request builder state -/

def MAX_ATTEMPTS : Nat := 10
def TOO_MANY_REQUESTS : Nat := 429
def REQ_DATUM_LIMIT : Nat := 20
def REQ_BYTE_LIMIT : Nat := 40 * 1024

def RECOVERABLE_NET_ERRORS : List String :=
  ["EAI_AGAIN", "ENOTFOUND", "ETIMEDOUT", "ESOCKETTIMEDOUT",
   "ECONNREFUSED", "ECONNRESET", "EHOSTUNREACH", "EPIPE"]

/-- One accumulator node of the builder chain: the fields `_body`,
`_byteLength` and `_datumCount` of one RequestBuilder object. -/
structure Acc where
  body : String
  byteLength : Nat
  datumCount : Nat
  deriving Repr, DecidableEq

def emptyAcc : Acc := { body := "", byteLength := 0, datumCount := 0 }

/-- The whole builder: the primary RequestBuilder together with the linked
`_child` overflow builders (`chain`, primary first) and the primary object
shared `_datum` buffer (`pendingDatum`).  Child buffers are never used. -/
structure Builder where
  ns : String
  chain : List Acc
  pendingDatum : List String
  deriving Repr, DecidableEq

def newBuilder (ns : String) : Builder :=
  { ns := ns, chain := [emptyAcc], pendingDatum := [] }

def preambleStr (ns : String) : String :=
  encodeKeyValue "Action" "PutMetricData" ++ "&" ++
    encodeKeyValue "Version" "2010-08-01" ++ "&" ++
    encodeKeyValue "Namespace" ns

/-- The lazy preamble assignment at the top of `_addDatum`: performed
before the size check, so it survives even when the datum overflows. -/
def accWithPreamble (ns : String) (a : Acc) : Acc :=
  if a.body = "" then
    { a with body := preambleStr ns, byteLength := utf8Len (preambleStr ns) }
  else a

/-- The serialized form of one datum at 1-based member index `i`:
`prefixString + datum.join(prefixString)`. -/
def mkDatumStr (i : Nat) (datum : List String) : String :=
  let p := "&MetricData.member." ++ toString i ++ "."
  p ++ String.intercalate p datum

def accAppend (a : Acc) (str : String) (bl : Nat) : Acc :=
  { body := a.body ++ str, byteLength := a.byteLength + bl, datumCount := a.datumCount + 1 }

/-- `new RequestBuilder(...)._addDatum(datum, false)`: the fresh overflow
child receiving a datum with splitting disabled. -/
def freshChildAdd (ns : String) (datum : List String) : Except (String × Acc) Acc :=
  let a1 := accWithPreamble ns emptyAcc
  let str := mkDatumStr (a1.datumCount + 1) datum
  let bl := utf8Len str
  if a1.datumCount ≥ REQ_DATUM_LIMIT || a1.byteLength + bl > REQ_BYTE_LIMIT then
    .error ("Datum is too big", a1)
  else
    .ok (accAppend a1 str bl)

/-- `_addDatum(datum, true)` recursing through the child chain.  On error
the returned chain is the state left behind by the throw (preambles were
assigned, the fresh child object was attached). -/
def chainAddDatum (ns : String) (datum : List String) :
    List Acc → Except (String × List Acc) (List Acc)
  | [] => .error ("no accumulator", [])
  | a :: rest =>
    let a1 := accWithPreamble ns a
    let str := mkDatumStr (a1.datumCount + 1) datum
    let bl := utf8Len str
    if a1.datumCount ≥ REQ_DATUM_LIMIT || a1.byteLength + bl > REQ_BYTE_LIMIT then
      match rest with
      | [] =>
        match freshChildAdd ns datum with
        | .error (e, c) => .error (e, [a1, c])
        | .ok c => .ok [a1, c]
      | b :: rest2 =>
        match chainAddDatum ns datum (b :: rest2) with
        | .error (e, ch) => .error (e, a1 :: ch)
        | .ok ch => .ok (a1 :: ch)
    else
      .ok (accAppend a1 str bl :: rest)

/-! ## Building one datum (the `_datum` buffer operations) -/

/-- `_addDatumKeyValue`, acting on the pending buffer. -/
def addDatumKeyValue (pend : List String) (key value : String) :
    Except (String × List String) (List String) :=
  if key = "" then .error ("key cannot be empty", pend)
  else .ok (pend ++ [encodeKeyValue key value])

/-- `_addDatumProps`.  `date` is the ISO string of the metric date, `none`
when the date is null or undefined.  `resolution` is `none` when absent. -/
def addDatumProps (unitLong : String → String) (pend : List String)
    (metricName : String) (date : Option String) (unit : String)
    (resolution : Option Int) : Except (String × List String) (List String) :=
  match date with
  | none => .error ("Date is required", pend)
  | some d =>
    match addDatumKeyValue pend "MetricName" metricName with
    | .error e => .error e
    | .ok p1 =>
      match addDatumKeyValue p1 "Unit" (unitLong unit) with
      | .error e => .error e
      | .ok p2 =>
        match addDatumKeyValue p2 "Timestamp" (stripMillis d) with
        | .error e => .error e
        | .ok p3 =>
          match resolution with
          | some 1 => addDatumKeyValue p3 "StorageResolution" "1"
          | some r =>
            if r ≠ 60 then
              .error ("resolution must be one of 1 (high) or 60 seconds (normal)", p3)
            else .ok p3
          | none => .ok p3

def addDatumValue (pend : List String) (value : Int) :
    Except (String × List String) (List String) :=
  addDatumKeyValue pend "Value" (toString value)

def addDatumStatisticSet (pend : List String) (sum min max count : Int) :
    Except (String × List String) (List String) :=
  match addDatumKeyValue pend "StatisticValues.Sum" (toString sum) with
  | .error e => .error e
  | .ok p1 =>
    match addDatumKeyValue p1 "StatisticValues.Minimum" (toString min) with
    | .error e => .error e
    | .ok p2 =>
      match addDatumKeyValue p2 "StatisticValues.Maximum" (toString max) with
      | .error e => .error e
      | .ok p3 => addDatumKeyValue p3 "StatisticValues.SampleCount" (toString count)

/-- A JavaScript dimension value: null or undefined, a string, or any
value of another type (which only ever hits the type-error branch). -/
inductive JsVal where
  | vnull
  | vstr (s : String)
  | vother
  deriving Repr, DecidableEq

/-- `_addDatumDimensions`: iterate the tag object in insertion order.
`idx` is `dimensionIndex`, incremented only for emitted pairs. -/
def addDatumDims (pend : List String) (idx : Nat) :
    List (String × JsVal) → Except (String × List String) (List String)
  | [] => .ok pend
  | (name, v) :: rest =>
    if name = "" then .error ("dimension name cannot be empty", pend)
    else
      match v with
      | .vnull => addDatumDims pend idx rest
      | .vstr s =>
        if s = "" then addDatumDims pend idx rest
        else
          match addDatumKeyValue pend ("Dimensions.member." ++ toString idx ++ ".Name") name with
          | .error e => .error e
          | .ok p1 =>
            match addDatumKeyValue p1 ("Dimensions.member." ++ toString idx ++ ".Value") s with
            | .error e => .error e
            | .ok p2 => addDatumDims p2 (idx + 1) rest
      | .vother => .error ("dimension value must be a string", pend)

/-! ## Metrics and the public add methods -/

structure Stats where
  sum : Int
  min : Int
  max : Int
  count : Int
  deriving Repr, DecidableEq

structure SingleMetric where
  name : String
  date : Option String
  unit : String
  resolution : Option Int
  value : Int
  tags : List (String × JsVal)
  deriving Repr, DecidableEq

structure SummaryMetric where
  name : String
  date : Option String
  unit : String
  resolution : Option Int
  stats : Stats
  tags : List (String × JsVal)
  deriving Repr, DecidableEq

/-- The `_datum` buffer built by `addSingleMetric` before `_endDatum`,
starting from buffer state `pend`. -/
def singleDatum (unitLong : String → String) (pend : List String)
    (m : SingleMetric) : Except (String × List String) (List String) :=
  match addDatumProps unitLong pend m.name m.date m.unit m.resolution with
  | .error e => .error e
  | .ok p1 =>
    match addDatumValue p1 m.value with
    | .error e => .error e
    | .ok p2 => addDatumDims p2 1 m.tags

/-- The `_datum` buffer built by `addSummaryMetric` before `_endDatum`,
including the zero-sample-count coercion. -/
def summaryDatum (unitLong : String → String) (pend : List String)
    (m : SummaryMetric) : Except (String × List String) (List String) :=
  match addDatumProps unitLong pend m.name m.date m.unit m.resolution with
  | .error e => .error e
  | .ok p1 =>
    let s := m.stats
    let sum := if s.count = 0 then 0 else s.sum
    let min := if s.count = 0 then 0 else s.min
    let max := if s.count = 0 then 0 else s.max
    match addDatumStatisticSet p1 sum min max s.count with
    | .error e => .error e
    | .ok p2 => addDatumDims p2 1 m.tags

/-- `_endDatum`: hand the buffer to `_addDatum(datum, true)` and, only on
success, clear the buffer (`this._datum.length = 0` is unreachable after a
throw). -/
def endDatum (b : Builder) (pend : List String) : Except (String × Builder) Builder :=
  match chainAddDatum b.ns pend b.chain with
  | .error (e, ch) => .error (e, { b with chain := ch, pendingDatum := pend })
  | .ok ch => .ok { b with chain := ch, pendingDatum := [] }

def addSingleMetric (unitLong : String → String) (b : Builder)
    (m : SingleMetric) : Except (String × Builder) Builder :=
  match singleDatum unitLong b.pendingDatum m with
  | .error (e, p) => .error (e, { b with pendingDatum := p })
  | .ok p => endDatum b p

def addSummaryMetric (unitLong : String → String) (b : Builder)
    (m : SummaryMetric) : Except (String × Builder) Builder :=
  match summaryDatum unitLong b.pendingDatum m with
  | .error (e, p) => .error (e, { b with pendingDatum := p })
  | .ok p => endDatum b p

inductive Metric where
  | single (m : SingleMetric)
  | summary (m : SummaryMetric)
  deriving Repr, DecidableEq

def addMetric (unitLong : String → String) (b : Builder) :
    Metric → Except (String × Builder) Builder
  | .single m => addSingleMetric unitLong b m
  | .summary m => addSummaryMetric unitLong b m

def addMetrics (unitLong : String → String) :
    Builder → List Metric → Except (String × Builder) Builder
  | b, [] => .ok b
  | b, m :: ms =>
    match addMetric unitLong b m with
    | .error e => .error e
    | .ok b2 => addMetrics unitLong b2 ms

/-- The datum one metric serializes to, from an empty buffer. -/
def datumOf (unitLong : String → String) : Metric → Except (String × List String) (List String)
  | .single m => singleDatum unitLong [] m
  | .summary m => summaryDatum unitLong [] m

/-- Total variant of `datumOf` used to phrase decidable hypotheses. -/
def datumOfD (unitLong : String → String) (m : Metric) : List String :=
  match datumOf unitLong m with
  | .ok d => d
  | .error _ => []

/-! ## hasData and the synchronous part of send -/

def accHasData (a : Acc) : Bool := a.byteLength ≠ 0

/-- `hasData()`: tests only the primary accumulator of the chain. -/
def hasData (b : Builder) : Bool := accHasData (b.chain.headD emptyAcc)

/-- The synchronous phase of `send`: walk the chain, snapshot every body
with `hasData()` true, `_reset()` every node (which also clears the
`_datum` buffer).  Returns the batch and the builder as left behind. -/
def sendSnapshot (b : Builder) : List String × Builder :=
  (b.chain.filterMap fun a => if accHasData a then some a.body else none,
   { b with chain := b.chain.map fun _ => emptyAcc, pendingDatum := [] })

/-! ## Request signer (req-signer.js)

The SHA-256 primitives live in node crypto, outside this repository; the
definitions below take them as parameters: `hmacF key text` is the raw
digest of `crypto.createHmac`, `hmacHexF key text` its hex encoding, and
`hashHexF text` the hex SHA-256 of `text`.  Key material and digests are
both modelled as `String`. -/

def jsTrim (cs : List Char) : List Char :=
  ((cs.dropWhile Char.isWhitespace).reverse.dropWhile Char.isWhitespace).reverse

def collapseStep (acc : List Char × Bool) (c : Char) : List Char × Bool :=
  if c.isWhitespace then
    (if acc.2 then acc.1 else acc.1 ++ [' '], true)
  else (acc.1 ++ [c], false)

/-- `trimHeaderValue`: trim, then collapse internal whitespace runs to a
single space. -/
def trimHeaderValue (s : String) : String :=
  String.mk ((jsTrim s.data).foldl collapseStep ([], false)).1

/-- The global regex replace building `x-amz-date` from an ISO timestamp:
drop every colon and hyphen and every dot followed by three digits. -/
def amzStrip : List Char → List Char
  | [] => []
  | ':' :: r => amzStrip r
  | '-' :: r => amzStrip r
  | '.' :: a :: b :: c :: rest =>
    if a.isDigit && b.isDigit && c.isDigit then amzStrip rest
    else '.' :: amzStrip (a :: b :: c :: rest)
  | '.' :: r => '.' :: amzStrip r
  | c :: r => c :: amzStrip r

def toAmzDate (iso : String) : String :=
  String.mk (amzStrip iso.data)

/-- Credentials as held by the signer.  A missing `accessKeyId`,
`secretAccessKey` or `sessionToken` is the empty string, matching the
falsiness checks of the source; `expiration` is epoch milliseconds. -/
structure Creds where
  accessKeyId : String
  secretAccessKey : String
  sessionToken : String
  expiration : Option Int
  deriving Repr, DecidableEq

def credentialString (region date : String) : String :=
  date ++ "/" ++ region ++ "/monitoring/aws4_request"

/-- The chained HMAC key derivation performed on a signing-key cache miss. -/
def deriveKey (hmacF : String → String → String) (secret date region : String) : String :=
  hmacF (hmacF (hmacF (hmacF ("AWS4" ++ secret) date) region) "monitoring") "aws4_request"

def canonicalString (method path signedHeaders canonicalHeaders bodyHash : String) : String :=
  method ++ "\n" ++ path ++ "\n" ++ "\n" ++ canonicalHeaders ++ "\n" ++
    signedHeaders ++ "\n" ++ bodyHash

def stringToSign (hashHexF : String → String) (region : String)
    (method path datetime date signedHeaders canonicalHeaders bodyHash : String) : String :=
  "AWS4-HMAC-SHA256" ++ "\n" ++ datetime ++ "\n" ++ credentialString region date ++ "\n" ++
    hashHexF (canonicalString method path signedHeaders canonicalHeaders bodyHash)

/-- `RequestSigner.prototype.signature`.  `cache` is the result of the LRU
lookup `credentialsCache.get(cacheKey)` for this `(secret, date, region)`
triple: `none` on a miss (the chain is derived), `some k` on a hit. -/
def signatureFn (hmacF hmacHexF : String → String → String) (hashHexF : String → String)
    (cache : Option String) (secret region : String)
    (method path datetime date signedHeaders canonicalHeaders bodyHash : String) : String :=
  let kCredentials :=
    match cache with
    | some k => k
    | none => deriveKey hmacF secret date region
  hmacHexF kCredentials
    (stringToSign hashHexF region method path datetime date signedHeaders canonicalHeaders bodyHash)

def authHeader (hmacF hmacHexF : String → String → String) (hashHexF : String → String)
    (cache : Option String) (accessKeyId secret region : String)
    (method path datetime date signedHeaders canonicalHeaders bodyHash : String) : String :=
  "AWS4-HMAC-SHA256 Credential=" ++ accessKeyId ++ "/" ++ credentialString region date ++ ", " ++
    "SignedHeaders=" ++ signedHeaders ++ ", " ++
    "Signature=" ++ signatureFn hmacF hmacHexF hashHexF cache secret region
      method path datetime date signedHeaders canonicalHeaders bodyHash

/-- The request descriptor produced by `sign` (the JavaScript object with
its fixed header set flattened into fields). -/
structure SignedRequest where
  hostname : String
  path : String
  method : String
  body : String
  contentType : String
  contentLength : String
  xAmzContentSha256 : String
  xAmzDate : String
  xAmzSecurityToken : Option String
  authorization : String
  deriving Repr, DecidableEq

/-- The body of `sign` after the freshness guard: canonical request
construction and signing with fresh credentials `creds` and region
`region`.  `nowIso` is the ISO rendering of the current date. -/
def signFresh (hmacF hmacHexF : String → String → String) (hashHexF : String → String)
    (cache : Option String) (creds : Creds) (region : String)
    (body : String) (nowIso : String) (customDate : Option String) : SignedRequest :=
  let bodyHash := hashHexF body
  let hostname := "monitoring." ++ region ++ ".amazonaws.com"
  let datetime := toAmzDate (customDate.getD nowIso)
  let date := datetime.take 8
  let signedHeadersList :=
    ["host", "x-amz-content-sha256", "x-amz-date"] ++
      (if creds.sessionToken ≠ "" then ["x-amz-security-token"] else [])
  let headerValue : String → String := fun k =>
    if k = "host" then hostname
    else if k = "x-amz-content-sha256" then bodyHash
    else if k = "x-amz-date" then datetime
    else creds.sessionToken
  let canonicalHeaders :=
    String.intercalate "\n"
      (signedHeadersList.map fun k => k ++ ":" ++ trimHeaderValue (headerValue k)) ++ "\n"
  let signedHeaders := String.intercalate ";" signedHeadersList
  { hostname := hostname
    path := "/"
    method := "POST"
    body := body
    contentType := "application/x-www-form-urlencoded; charset=utf-8"
    contentLength := toString (utf8Len body)
    xAmzContentSha256 := bodyHash
    xAmzDate := datetime
    xAmzSecurityToken := if creds.sessionToken ≠ "" then some creds.sessionToken else none
    authorization := authHeader hmacF hmacHexF hashHexF cache creds.accessKeyId
      creds.secretAccessKey region "POST" "/" datetime date signedHeaders canonicalHeaders bodyHash }

/-- The mutable fields of a RequestSigner: `_credentials` and `_region`
(the empty string standing for undefined). -/
structure SignerState where
  credentials : Option Creds
  region : String
  deriving Repr, DecidableEq

def hasFreshCredentials (st : SignerState) (now : Int) : Bool :=
  match st.credentials with
  | none => false
  | some c =>
    match c.expiration with
    | none => true
    | some e => now < e - 30000

/-- `refreshCredentials`.  `getResult` is the outcome of the external
`_getCredentials` call.  On the still-stale error the state has already
been overwritten, exactly as in the source. -/
def refreshCredentials (st : SignerState) (now : Int)
    (getResult : Except String (Creds × String)) : Except (String × SignerState) SignerState :=
  match getResult with
  | .error e => .error (e, st)
  | .ok (credentials, region) =>
    if credentials.accessKeyId = "" then .error ("Missing accessKeyId", st)
    else if credentials.secretAccessKey = "" then .error ("Missing secretAccessKey", st)
    else if region = "" then .error ("Missing region", st)
    else
      let st2 : SignerState := { credentials := some credentials, region := region }
      if hasFreshCredentials st2 now = false then
        .error ("credentials did not successfully refresh", st2)
      else .ok st2

/-- `sign` with its refresh-and-retry recursion, fuelled (the source
recursion terminates because a successful refresh leaves fresh
credentials).  Returns the result, the final signer state and the number
of refresh attempts performed. -/
def signTop (hmacF hmacHexF : String → String → String) (hashHexF : String → String) :
    Nat → SignerState → Int → String → Except String (Creds × String) →
    Option String → String → Option String →
    Except String SignedRequest × SignerState × Nat
  | 0, st, _, _, _, _, _, _ => (.error "out of fuel", st, 0)
  | fuel + 1, st, now, nowIso, getResult, cache, body, customDate =>
    if hasFreshCredentials st now then
      match st.credentials with
      | some c =>
        (.ok (signFresh hmacF hmacHexF hashHexF cache c st.region body nowIso customDate), st, 0)
      | none => (.error "missing credentials", st, 0)
    else
      match refreshCredentials st now getResult with
      | .error (e, st2) => (.error e, st2, 1)
      | .ok st2 =>
        let r := signTop hmacF hmacHexF hashHexF fuel st2 now nowIso getResult cache body customDate
        (r.1, r.2.1, r.2.2 + 1)

/-! ## Transport and retry (`_sendBatch`)

The HTTPS layer is external; one attempt at one body is summarized by an
`AttemptOutcome` oracle indexed by body index and attempt number.  The
`finish` classification and the retry loop are embedded faithfully. -/

/-- An error object as seen by `finish`: `code` is the `err.code`
property (absent on plain `new Error(...)`). -/
structure JsError where
  code : Option String
  msg : String
  deriving Repr, DecidableEq

/-- What the platform did with one HTTPS attempt. -/
inductive AttemptOutcome where
  | response (statusCode : Nat)
  | netError (code : Option String) (msg : String)
  | socketTimeout
  deriving Repr, DecidableEq

/-- The `(err, statusCode)` pair with which `finish` is invoked first for
a given outcome (`reqTimeout` is `this._requestTimeout`, used only in the
timeout message). -/
def finishArgs (o : AttemptOutcome) (reqTimeout : Nat) : Option JsError × Option Nat :=
  match o with
  | .response sc =>
    if 200 ≤ sc ∧ sc < 300 then (none, some sc)
    else (some { code := none, msg := "HTTP " ++ toString sc }, some sc)
  | .netError c m => (some { code := c, msg := m }, none)
  | .socketTimeout =>
    (some { code := none, msg := "Socket timeout (" ++ toString reqTimeout ++ "ms)" }, none)

/-- The retry decision inside `finish`. -/
def shouldRetry (enableRetry : Bool) (attempt : Nat)
    (err : Option JsError) (statusCode : Option Nat) : Bool :=
  match err with
  | none => false
  | some e =>
    if enableRetry && attempt < MAX_ATTEMPTS then
      (match e.code with
       | some c => RECOVERABLE_NET_ERRORS.contains c
       | none => false) ||
      (match statusCode with
       | some sc => sc == TOO_MANY_REQUESTS || (500 ≤ sc && sc < 600)
       | none => false)
    else false

theorem shouldRetry_attempt_lt {enableRetry attempt err statusCode}
    (h : shouldRetry enableRetry attempt err statusCode = true) : attempt < MAX_ATTEMPTS := by
  unfold shouldRetry at h
  cases err with
  | none => simp at h
  | some e =>
    by_cases hc : (enableRetry && decide (attempt < MAX_ATTEMPTS)) = true
    · exact of_decide_eq_true (Bool.and_elim_right hc)
    · simp [hc] at h

/-- Events observable from outside one `_sendBatch` run: a signed request
was emitted and handed to HTTPS, or a retry delay was scheduled. -/
inductive SendEvent where
  | signed (bodyIdx attempt : Nat)
  | delayed (ms : Nat)
  deriving Repr, DecidableEq

/-- `_sendBatch`.  `sgn i a` is the signing outcome for body `i` on
attempt `a` (`none` = signed fine), `oc i a` the transport outcome;
`firstError` is threaded exactly as in the source, and the first
component of the result is the argument eventually passed to `done`. -/
def sendBatch (enableRetry : Bool) (retryDelay reqTimeout : Nat)
    (sgn : Nat → Nat → Option String) (oc : Nat → Nat → AttemptOutcome)
    (batchLen : Nat) :
    Nat → Nat → Option JsError → Option JsError × List SendEvent
  | batchIndex, attempt, firstError =>
    if _hLen : batchLen ≤ batchIndex then (none, [])
    else
      match sgn batchIndex attempt with
      | some e => (some { code := none, msg := e }, [])
      | none =>
        let ea := finishArgs (oc batchIndex attempt) reqTimeout
        if hR : shouldRetry enableRetry attempt ea.1 ea.2 = true then
          let r := sendBatch enableRetry retryDelay reqTimeout sgn oc batchLen
            batchIndex (attempt + 1) firstError
          (r.1, .signed batchIndex attempt :: .delayed retryDelay :: r.2)
        else
          let fe := match firstError with
            | some e0 => some e0
            | none => ea.1
          if _hNext : batchIndex < batchLen - 1 then
            let r := sendBatch enableRetry retryDelay reqTimeout sgn oc batchLen
              (batchIndex + 1) 1 fe
            (r.1, .signed batchIndex attempt :: r.2)
          else (fe, [.signed batchIndex attempt])
  termination_by batchIndex attempt _ => (batchLen - batchIndex, MAX_ATTEMPTS - attempt)
  decreasing_by
  · have := shouldRetry_attempt_lt hR
    apply Prod.Lex.right
    omega
  · apply Prod.Lex.left
    omega

/-- The error with which one body finally settles, starting at attempt
number `attempt`, when signing succeeds throughout (`none` = delivered). -/
def bodyLoop (enableRetry : Bool) (reqTimeout : Nat)
    (oc : Nat → Nat → AttemptOutcome) (i : Nat) : Nat → Option JsError
  | attempt =>
    let ea := finishArgs (oc i attempt) reqTimeout
    if hR : shouldRetry enableRetry attempt ea.1 ea.2 = true then
      bodyLoop enableRetry reqTimeout oc i (attempt + 1)
    else ea.1
  termination_by attempt => MAX_ATTEMPTS - attempt
  decreasing_by
  · have := shouldRetry_attempt_lt hR
    omega

/-! ## Helper lemmas -/

theorem utf8Len_eq_zero {s : String} : utf8Len s = 0 ↔ s = "" := by
  constructor
  · intro h
    cases s with
    | mk data =>
      cases data with
      | nil => rfl
      | cons c cs =>
        exfalso
        have hc := Char.utf8Size_pos c
        simp [utf8Len, List.map_cons, List.sum_cons] at h
        omega
  · intro h
    subst h
    rfl

/-- `cache` holds nothing or exactly the key the derivation chain yields:
the only values the source ever inserts for this `(secret, date, region)`
triple. -/
def cacheConsistent (hmacF : String → String → String) (cache : Option String)
    (secret date region : String) : Prop :=
  cache = none ∨ cache = some (deriveKey hmacF secret date region)

theorem signatureFn_cache {hmacF hmacHexF : String → String → String} {hashHexF : String → String}
    {cache : Option String} {secret region : String}
    {method path datetime date signedHeaders canonicalHeaders bodyHash : String}
    (h : cacheConsistent hmacF cache secret date region) :
    signatureFn hmacF hmacHexF hashHexF cache secret region
        method path datetime date signedHeaders canonicalHeaders bodyHash =
      hmacHexF (deriveKey hmacF secret date region)
        (stringToSign hashHexF region method path datetime date signedHeaders canonicalHeaders bodyHash) := by
  cases h with
  | inl h => subst h; rfl
  | inr h => subst h; rfl

/-- C1: for every signed request, the derived signing key is the four-level
HMAC chain over "AWS4"+secret, the UTC date, the region, "monitoring" and
"aws4_request"; the signature is the hex HMAC of that key over the
string-to-sign built from the AWS4-HMAC-SHA256 tag, the timestamp, the
credential scope date8/region/monitoring/aws4_request and the hex SHA-256
of the canonical request; and the authorization header has exactly the
form AWS4-HMAC-SHA256 Credential=keyId/scope, SignedHeaders=list,
Signature=hex. -/
theorem c1_signing_scheme
    (hmacF hmacHexF : String → String → String) (hashHexF : String → String)
    (cache : Option String) (creds : Creds) (region body nowIso : String)
    (customDate : Option String)
    (hcache : cacheConsistent hmacF cache creds.secretAccessKey
      ((toAmzDate (customDate.getD nowIso)).take 8) region) :
    ∃ canonicalRequest,
      (signFresh hmacF hmacHexF hashHexF cache creds region body nowIso customDate).authorization =
        "AWS4-HMAC-SHA256 Credential=" ++ creds.accessKeyId ++ "/" ++
          ((toAmzDate (customDate.getD nowIso)).take 8 ++ "/" ++ region ++ "/monitoring/aws4_request") ++
          ", " ++ "SignedHeaders=" ++
          (if creds.sessionToken ≠ "" then
            "host;x-amz-content-sha256;x-amz-date;x-amz-security-token"
          else "host;x-amz-content-sha256;x-amz-date") ++ ", " ++ "Signature=" ++
          hmacHexF
            (hmacF (hmacF (hmacF (hmacF ("AWS4" ++ creds.secretAccessKey)
                ((toAmzDate (customDate.getD nowIso)).take 8)) region) "monitoring") "aws4_request")
            ("AWS4-HMAC-SHA256" ++ "\n" ++ toAmzDate (customDate.getD nowIso) ++ "\n" ++
              ((toAmzDate (customDate.getD nowIso)).take 8 ++ "/" ++ region ++ "/monitoring/aws4_request") ++
              "\n" ++ hashHexF canonicalRequest) := by
  refine ⟨canonicalString "POST" "/"
      (String.intercalate ";" (["host", "x-amz-content-sha256", "x-amz-date"] ++
        (if creds.sessionToken ≠ "" then ["x-amz-security-token"] else [])))
      (String.intercalate "\n"
        ((["host", "x-amz-content-sha256", "x-amz-date"] ++
          (if creds.sessionToken ≠ "" then ["x-amz-security-token"] else [])).map fun k =>
          k ++ ":" ++ trimHeaderValue
            (if k = "host" then "monitoring." ++ region ++ ".amazonaws.com"
             else if k = "x-amz-content-sha256" then hashHexF body
             else if k = "x-amz-date" then toAmzDate (customDate.getD nowIso)
             else creds.sessionToken)) ++ "\n")
      (hashHexF body), ?_⟩
  by_cases hTok : creds.sessionToken = "" <;>
    (simp [signFresh, authHeader, signatureFn_cache hcache, stringToSign,
      credentialString, deriveKey, hTok]) <;> rfl

def hmToy (k s : String) : String := k ++ "#" ++ s

def hmHexToy (k s : String) : String := k ++ "!" ++ s

def hashHexToy (s : String) : String := s ++ "$"

def credsToy : Creds :=
  { accessKeyId := "id", secretAccessKey := "sec", sessionToken := "", expiration := none }

/-- Witness for C1 at concrete inputs with toy primitives and an empty
cache. -/
theorem c1_signing_scheme_witness :
    cacheConsistent hmToy none credsToy.secretAccessKey
      ((toAmzDate ((none : Option String).getD "2017-12-11T11:53:54.123Z")).take 8) "us-east-1" ∧
    ∃ canonicalRequest,
      (signFresh hmToy hmHexToy hashHexToy none credsToy "us-east-1" "b"
          "2017-12-11T11:53:54.123Z" none).authorization =
        "AWS4-HMAC-SHA256 Credential=" ++ credsToy.accessKeyId ++ "/" ++
          ((toAmzDate ((none : Option String).getD "2017-12-11T11:53:54.123Z")).take 8 ++
            "/" ++ "us-east-1" ++ "/monitoring/aws4_request") ++
          ", " ++ "SignedHeaders=" ++
          (if credsToy.sessionToken ≠ "" then
            "host;x-amz-content-sha256;x-amz-date;x-amz-security-token"
          else "host;x-amz-content-sha256;x-amz-date") ++ ", " ++ "Signature=" ++
          hmHexToy
            (hmToy (hmToy (hmToy (hmToy ("AWS4" ++ credsToy.secretAccessKey)
                ((toAmzDate ((none : Option String).getD "2017-12-11T11:53:54.123Z")).take 8))
                "us-east-1") "monitoring") "aws4_request")
            ("AWS4-HMAC-SHA256" ++ "\n" ++
              toAmzDate ((none : Option String).getD "2017-12-11T11:53:54.123Z") ++ "\n" ++
              ((toAmzDate ((none : Option String).getD "2017-12-11T11:53:54.123Z")).take 8 ++
                "/" ++ "us-east-1" ++ "/monitoring/aws4_request") ++
              "\n" ++ hashHexToy canonicalRequest) :=
  ⟨Or.inl rfl, c1_signing_scheme hmToy hmHexToy hashHexToy none credsToy "us-east-1" "b"
    "2017-12-11T11:53:54.123Z" none (Or.inl rfl)⟩

/-- C7: signing is deterministic: for every body, credential set, region
and timestamp, the signed request descriptor (and in particular the
authorization header) is the same whether the derived signing key is
served from the signing-key cache or recomputed, and two invocations on
the same fresh credentials agree. -/
theorem c7_sign_deterministic
    (hmacF hmacHexF : String → String → String) (hashHexF : String → String)
    (creds : Creds) (region body nowIso : String) (customDate : Option String)
    (cacheA cacheB : Option String)
    (hA : cacheConsistent hmacF cacheA creds.secretAccessKey
      ((toAmzDate (customDate.getD nowIso)).take 8) region)
    (hB : cacheConsistent hmacF cacheB creds.secretAccessKey
      ((toAmzDate (customDate.getD nowIso)).take 8) region) :
    signFresh hmacF hmacHexF hashHexF cacheA creds region body nowIso customDate =
      signFresh hmacF hmacHexF hashHexF cacheB creds region body nowIso customDate ∧
    ∀ fuel now getResult st,
      st = { credentials := some creds, region := region } →
      hasFreshCredentials st now = true →
      signTop hmacF hmacHexF hashHexF (fuel + 1) st now nowIso getResult cacheA body customDate =
        signTop hmacF hmacHexF hashHexF (fuel + 1) st now nowIso getResult cacheB body customDate := by
  have hsig : signFresh hmacF hmacHexF hashHexF cacheA creds region body nowIso customDate =
      signFresh hmacF hmacHexF hashHexF cacheB creds region body nowIso customDate := by
    simp only [signFresh, authHeader, signatureFn_cache hA, signatureFn_cache hB]
  refine ⟨hsig, ?_⟩
  intro fuel now getResult st hst hfresh
  subst hst
  simp only [signTop, hfresh, if_true, hsig]

/-- Witness for C7: cache miss versus cache hit on the derived key, with
toy primitives, at a concrete input. -/
theorem c7_sign_deterministic_witness :
    cacheConsistent hmToy none credsToy.secretAccessKey
      ((toAmzDate ((none : Option String).getD "2017-12-11T11:53:54.123Z")).take 8) "us-east-1" ∧
    cacheConsistent hmToy
      (some (deriveKey hmToy credsToy.secretAccessKey
        ((toAmzDate ((none : Option String).getD "2017-12-11T11:53:54.123Z")).take 8) "us-east-1"))
      credsToy.secretAccessKey
      ((toAmzDate ((none : Option String).getD "2017-12-11T11:53:54.123Z")).take 8) "us-east-1" ∧
    (signFresh hmToy hmHexToy hashHexToy none credsToy "us-east-1" "b"
        "2017-12-11T11:53:54.123Z" none =
      signFresh hmToy hmHexToy hashHexToy
        (some (deriveKey hmToy credsToy.secretAccessKey
          ((toAmzDate ((none : Option String).getD "2017-12-11T11:53:54.123Z")).take 8) "us-east-1"))
        credsToy "us-east-1" "b" "2017-12-11T11:53:54.123Z" none ∧
    ∀ fuel now getResult st,
      st = { credentials := some credsToy, region := "us-east-1" } →
      hasFreshCredentials st now = true →
      signTop hmToy hmHexToy hashHexToy (fuel + 1) st now "2017-12-11T11:53:54.123Z" getResult
          none "b" none =
        signTop hmToy hmHexToy hashHexToy (fuel + 1) st now "2017-12-11T11:53:54.123Z" getResult
          (some (deriveKey hmToy credsToy.secretAccessKey
            ((toAmzDate ((none : Option String).getD "2017-12-11T11:53:54.123Z")).take 8) "us-east-1"))
          "b" none) :=
  ⟨Or.inl rfl, Or.inr rfl,
    c7_sign_deterministic hmToy hmHexToy hashHexToy credsToy "us-east-1" "b"
      "2017-12-11T11:53:54.123Z" none none
      (some (deriveKey hmToy credsToy.secretAccessKey
        ((toAmzDate ((none : Option String).getD "2017-12-11T11:53:54.123Z")).take 8) "us-east-1"))
      (Or.inl rfl) (Or.inr rfl)⟩

theorem append_ne_empty_left {a : String} (b : String) (ha : a ≠ "") : a ++ b ≠ "" := by
  intro h
  apply ha
  have h0 : utf8Len (a ++ b) = 0 := by rw [h]; rfl
  rw [utf8Len_append] at h0
  exact utf8Len_eq_zero.mp (by omega)

theorem addDatumDims_pre {dims : List (String × JsVal)} :
    ∀ {pend res : List String} {idx : Nat},
    addDatumDims pend idx dims = .ok res → ∃ suf, res = pend ++ suf := by
  induction dims with
  | nil =>
    intro pend res idx h
    simp only [addDatumDims] at h
    cases h
    exact ⟨[], by simp⟩
  | cons hd tl ih =>
    intro pend res idx h
    obtain ⟨name, v⟩ := hd
    simp only [addDatumDims] at h
    split at h
    · cases h
    · cases v with
      | vnull => exact ih h
      | vother => cases h
      | vstr sv =>
        simp only at h
        split at h
        · exact ih h
        · simp only [addDatumKeyValue,
            if_neg (append_ne_empty_left _ (by decide : ("Dimensions.member." : String) ≠ ""))] at h
          obtain ⟨suf, hsuf⟩ := ih h
          refine ⟨encodeKeyValue ("Dimensions.member." ++ toString idx ++ ".Name") name ::
            encodeKeyValue ("Dimensions.member." ++ toString idx ++ ".Value") sv :: suf, ?_⟩
          rw [hsuf]
          simp

theorem addDatumStatisticSet_zero (p1 : List String) :
    addDatumStatisticSet p1 0 0 0 0 =
      .ok ((((p1 ++ ["StatisticValues.Sum=0"]) ++ ["StatisticValues.Minimum=0"]) ++
        ["StatisticValues.Maximum=0"]) ++ ["StatisticValues.SampleCount=0"]) := rfl

def zeroStats : Stats := { sum := 0, min := 0, max := 0, count := 0 }

/-- C9: a summary metric with sampleCount zero is not rejected or omitted:
the StatisticValues fields Sum, Minimum, Maximum and SampleCount all
serialize as 0 regardless of the provided sum, min and max values. -/
theorem c9_zero_sample_count (unitLong : String → String) (m : SummaryMetric)
    (hc : m.stats.count = 0) :
    (∀ pend, summaryDatum unitLong pend m =
        summaryDatum unitLong pend { m with stats := zeroStats }) ∧
    (∀ b, addSummaryMetric unitLong b m =
        addSummaryMetric unitLong b { m with stats := zeroStats }) ∧
    (∀ d, summaryDatum unitLong [] m = .ok d →
      "StatisticValues.Sum=0" ∈ d ∧ "StatisticValues.Minimum=0" ∈ d ∧
      "StatisticValues.Maximum=0" ∈ d ∧ "StatisticValues.SampleCount=0" ∈ d) := by
  have h1 : ∀ pend, summaryDatum unitLong pend m =
      summaryDatum unitLong pend { m with stats := zeroStats } := by
    intro pend
    simp [summaryDatum, hc, zeroStats]
  refine ⟨h1, fun b => by simp only [addSummaryMetric, h1], ?_⟩
  intro d hd
  rw [h1] at hd
  simp only [summaryDatum, zeroStats] at hd
  cases hp : addDatumProps unitLong [] m.name m.date m.unit m.resolution with
  | error e => rw [hp] at hd; cases hd
  | ok p1 =>
    rw [hp] at hd
    simp only [if_true] at hd
    rw [addDatumStatisticSet_zero] at hd
    simp only at hd
    obtain ⟨suf, hsuf⟩ := addDatumDims_pre hd
    subst hsuf
    simp

def mSumZero : SummaryMetric :=
  { name := "s", date := some "1970-01-01T00:00:00.000Z", unit := "u", resolution := none,
    stats := { sum := 5, min := 1, max := 9, count := 0 }, tags := [] }

/-- Witness for C9 at a concrete summary metric with nonzero sum, min and
max but zero sample count. -/
theorem c9_zero_sample_count_witness :
    mSumZero.stats.count = 0 ∧
    ((∀ pend, summaryDatum id pend mSumZero =
        summaryDatum id pend { mSumZero with stats := zeroStats }) ∧
     (∀ b, addSummaryMetric id b mSumZero =
        addSummaryMetric id b { mSumZero with stats := zeroStats }) ∧
     (∀ d, summaryDatum id [] mSumZero = .ok d →
       "StatisticValues.Sum=0" ∈ d ∧ "StatisticValues.Minimum=0" ∈ d ∧
       "StatisticValues.Maximum=0" ∈ d ∧ "StatisticValues.SampleCount=0" ∈ d)) :=
  ⟨rfl, c9_zero_sample_count id mSumZero rfl⟩

/-- C3: a failed attempt is retried iff retry is enabled, the attempt
number is below the maximum, and either the error code is in the
enumerated recoverable set or the HTTP status is 429 or 5xx; a successful
attempt (no error) is never retried; a socket timeout is never retried
regardless of the retry setting; and any other non-2xx status is
terminal. -/
theorem c3_retry_classification :
    (∀ (enableRetry : Bool) (attempt : Nat) (e : JsError) (statusCode : Option Nat),
      shouldRetry enableRetry attempt (some e) statusCode = true ↔
        (enableRetry = true ∧ attempt < MAX_ATTEMPTS ∧
          ((∃ c, e.code = some c ∧ c ∈ RECOVERABLE_NET_ERRORS) ∨
            statusCode = some 429 ∨
            (∃ sc, statusCode = some sc ∧ 500 ≤ sc ∧ sc < 600)))) ∧
    (∀ (enableRetry : Bool) (attempt : Nat) (statusCode : Option Nat),
      shouldRetry enableRetry attempt none statusCode = false) ∧
    (∀ (enableRetry : Bool) (attempt reqTimeout : Nat),
      shouldRetry enableRetry attempt (finishArgs .socketTimeout reqTimeout).1
        (finishArgs .socketTimeout reqTimeout).2 = false) ∧
    (∀ (enableRetry : Bool) (attempt reqTimeout sc : Nat),
      ¬(200 ≤ sc ∧ sc < 300) → sc ≠ 429 → ¬(500 ≤ sc ∧ sc < 600) →
      shouldRetry enableRetry attempt (finishArgs (.response sc) reqTimeout).1
        (finishArgs (.response sc) reqTimeout).2 = false) := by
  refine ⟨?_, ?_, ?_, ?_⟩
  · intro E a e sc
    simp only [shouldRetry]
    by_cases hE : (E && decide (a < MAX_ATTEMPTS)) = true
    · rw [if_pos hE]
      simp only [Bool.and_eq_true, decide_eq_true_eq] at hE
      cases hc : e.code <;> cases hsc : sc <;>
        simp [hE, TOO_MANY_REQUESTS, List.elem_iff, Nat.lt_iff_add_one_le]
    · rw [if_neg hE]
      simp only [Bool.and_eq_true, decide_eq_true_eq] at hE
      simp only [Bool.false_eq_true, false_iff]
      intro hcon
      exact hE ⟨hcon.1, hcon.2.1⟩
  · intro E a sc
    rfl
  · intro E a T
    simp [shouldRetry, finishArgs]
  · intro E a T sc h2xx h429 h5xx
    simp only [finishArgs, if_neg h2xx, shouldRetry]
    split
    · simp [TOO_MANY_REQUESTS, h429]
      omega
    · rfl

/-- Witness for C3: a 404 response is terminal even with retry enabled and
attempts remaining. -/
theorem c3_retry_classification_witness :
    ¬(200 ≤ 404 ∧ 404 < 300) ∧ (404 : Nat) ≠ 429 ∧ ¬(500 ≤ 404 ∧ 404 < 600) ∧
    shouldRetry true 3 (finishArgs (.response 404) 60000).1
      (finishArgs (.response 404) 60000).2 = false :=
  ⟨by decide, by decide, by decide,
    c3_retry_classification.2.2.2 true 3 60000 404 (by decide) (by decide) (by decide)⟩

theorem hasFresh_some {st : SignerState} {now : Int}
    (h : hasFreshCredentials st now = true) : ∃ c, st.credentials = some c := by
  cases hc : st.credentials with
  | none => rw [hasFreshCredentials, hc] at h; cases h
  | some c => exact ⟨c, rfl⟩

theorem refresh_ok_fresh {st : SignerState} {now : Int}
    {getResult : Except String (Creds × String)} {st2 : SignerState}
    (h : refreshCredentials st now getResult = .ok st2) :
    hasFreshCredentials st2 now = true := by
  unfold refreshCredentials at h
  split at h
  · cases h
  · split at h
    · cases h
    · split at h
      · cases h
      · split at h
        · cases h
        · dsimp only at h
          split at h
          · cases h
          · cases h
            rename_i hcond
            simp only [Bool.not_eq_false] at hcond
            exact hcond

/-- C6: each sign call refreshes exactly once when credentials are stale
or absent and not at all when fresh; a refresh yielding a missing
accessKeyId, secretAccessKey or region fails with a configuration error,
a refresh after which the credentials are still stale is also fatal, and
in every failure case no signed request is produced. -/
theorem c6_credential_refresh
    (hmacF hmacHexF : String → String → String) (hashHexF : String → String)
    (fuel : Nat) (st : SignerState) (now : Int) (nowIso : String)
    (getResult : Except String (Creds × String)) (cache : Option String)
    (body : String) (customDate : Option String) (hfuel : 2 ≤ fuel) :
    (hasFreshCredentials st now = true →
      ∃ c, st.credentials = some c ∧
        signTop hmacF hmacHexF hashHexF fuel st now nowIso getResult cache body customDate =
          (.ok (signFresh hmacF hmacHexF hashHexF cache c st.region body nowIso customDate), st, 0)) ∧
    (hasFreshCredentials st now = false →
      (∀ e st2, refreshCredentials st now getResult = .error (e, st2) →
        signTop hmacF hmacHexF hashHexF fuel st now nowIso getResult cache body customDate =
          (.error e, st2, 1)) ∧
      (∀ st2, refreshCredentials st now getResult = .ok st2 →
        ∃ c2, st2.credentials = some c2 ∧
          signTop hmacF hmacHexF hashHexF fuel st now nowIso getResult cache body customDate =
            (.ok (signFresh hmacF hmacHexF hashHexF cache c2 st2.region body nowIso customDate), st2, 1))) ∧
    (∀ creds region, getResult = .ok (creds, region) →
      (creds.accessKeyId = "" ∨ creds.secretAccessKey = "" ∨ region = "") →
      ∃ e st2, refreshCredentials st now getResult = .error (e, st2)) ∧
    (∀ creds region, getResult = .ok (creds, region) →
      creds.accessKeyId ≠ "" → creds.secretAccessKey ≠ "" → region ≠ "" →
      hasFreshCredentials { credentials := some creds, region := region } now = false →
      refreshCredentials st now getResult =
        .error ("credentials did not successfully refresh",
          { credentials := some creds, region := region })) := by
  obtain ⟨k, rfl⟩ : ∃ k, fuel = k + 2 := ⟨fuel - 2, by omega⟩
  refine ⟨?_, ?_, ?_, ?_⟩
  · intro hfresh
    obtain ⟨c, hc⟩ := hasFresh_some hfresh
    exact ⟨c, hc, by simp [signTop, hfresh, hc]⟩
  · intro hstale
    constructor
    · intro e st2 herr
      simp [signTop, hstale, herr]
    · intro st2 hok
      have hfresh2 := refresh_ok_fresh hok
      obtain ⟨c2, hc2⟩ := hasFresh_some hfresh2
      exact ⟨c2, hc2, by simp [signTop, hstale, hok, hfresh2, hc2]⟩
  · intro creds region hget hmiss
    subst hget
    rcases hmiss with h | h | h
    · exact ⟨"Missing accessKeyId", st, by simp [refreshCredentials, h]⟩
    · by_cases hak : creds.accessKeyId = ""
      · exact ⟨"Missing accessKeyId", st, by simp [refreshCredentials, hak]⟩
      · exact ⟨"Missing secretAccessKey", st, by simp [refreshCredentials, hak, h]⟩
    · by_cases hak : creds.accessKeyId = ""
      · exact ⟨"Missing accessKeyId", st, by simp [refreshCredentials, hak]⟩
      · by_cases hsk : creds.secretAccessKey = ""
        · exact ⟨"Missing secretAccessKey", st, by simp [refreshCredentials, hak, hsk]⟩
        · exact ⟨"Missing region", st, by simp [refreshCredentials, hak, hsk, h]⟩
  · intro creds region hget hak hsk hreg hstale2
    subst hget
    simp [refreshCredentials, hak, hsk, hreg, hstale2]

def stStale : SignerState := { credentials := none, region := "" }

def getToy : Except String (Creds × String) := .ok (credsToy, "us-east-1")

def stToy2 : SignerState := { credentials := some credsToy, region := "us-east-1" }

/-- Witness for C6: a stale signer refreshes exactly once and signs. -/
theorem c6_credential_refresh_witness :
    2 ≤ 2 ∧ hasFreshCredentials stStale 0 = false ∧
    refreshCredentials stStale 0 getToy = .ok stToy2 ∧
    ∃ c2, stToy2.credentials = some c2 ∧
      signTop hmToy hmHexToy hashHexToy 2 stStale 0 "iso" getToy none "b" none =
        (.ok (signFresh hmToy hmHexToy hashHexToy none c2 stToy2.region "b" "iso" none), stToy2, 1) :=
  ⟨by decide, by decide, rfl,
    ((c6_credential_refresh hmToy hmHexToy hashHexToy 2 stStale 0 "iso" getToy none "b" none
      (by decide)).2.1 (by decide)).2 stToy2 rfl⟩

theorem filterMap_ite {α β : Type} (p : α → Bool) (f : α → β) (l : List α) :
    l.filterMap (fun a => if p a then some (f a) else none) = (l.filter p).map f := by
  induction l with
  | nil => rfl
  | cons a l ih => by_cases h : p a <;> simp [List.filterMap_cons, List.filter_cons, h, ih]

/-- C5: send synchronously snapshots the bodies with data in chain order
and resets every accumulator and the pending buffer before any network
work, so the drained builder reports no data; under the byte-length
invariant the snapshot is exactly the non-empty bodies; and an empty
snapshot completes with no error, no signing and no request events. -/
theorem c5_send_snapshot (b : Builder) :
    (sendSnapshot b).1 = (b.chain.filter accHasData).map Acc.body ∧
    (sendSnapshot b).2 =
      { b with chain := b.chain.map fun _ => emptyAcc, pendingDatum := [] } ∧
    hasData (sendSnapshot b).2 = false ∧
    ((∀ a ∈ b.chain, (a.byteLength = 0 ↔ a.body = "")) →
      (sendSnapshot b).1 = (b.chain.filter (fun a => a.body ≠ "")).map Acc.body) ∧
    ((sendSnapshot b).1 = [] →
      ∀ (enableRetry : Bool) (retryDelay reqTimeout : Nat)
        (sgn : Nat → Nat → Option String) (oc : Nat → Nat → AttemptOutcome),
        sendBatch enableRetry retryDelay reqTimeout sgn oc
          (sendSnapshot b).1.length 0 1 none = (none, [])) := by
  refine ⟨filterMap_ite accHasData Acc.body b.chain, rfl, ?_, ?_, ?_⟩
  · cases hch : b.chain with
    | nil => simp [sendSnapshot, hasData, hch, accHasData, emptyAcc]
    | cons a rest => simp [sendSnapshot, hasData, hch, accHasData, emptyAcc]
  · intro hinv
    rw [show (sendSnapshot b).1 = (b.chain.filter accHasData).map Acc.body from
      filterMap_ite accHasData Acc.body b.chain]
    congr 1
    apply List.filter_congr
    intro a ha
    have h := hinv a ha
    by_cases hb : a.body = ""
    · simp [accHasData, hb, h.mpr hb]
    · have hbl : a.byteLength ≠ 0 := fun h0 => hb (h.mp h0)
      simp [accHasData, hb, hbl]
  · intro hempty E D T sgn oc
    rw [hempty]
    rw [sendBatch]
    simp

/-- Witness for C5 on a fresh builder, discharging the byte-length
invariant hypothesis. -/
theorem c5_send_snapshot_witness :
    (∀ a ∈ (newBuilder "t").chain, (a.byteLength = 0 ↔ a.body = "")) ∧
    (sendSnapshot (newBuilder "t")).1 =
      ((newBuilder "t").chain.filter (fun a => a.body ≠ "")).map Acc.body :=
  ⟨by decide, (c5_send_snapshot (newBuilder "t")).2.2.2.1 (by decide)⟩

/-- The builder state carried by an add result, error or success. -/
def resState (r : Except (String × Builder) Builder) : Builder :=
  match r with
  | .error (_, b) => b
  | .ok b => b

def mBadRes : SingleMetric :=
  { name := "a", date := some "1970-01-01T00:00:00.000Z", unit := "u", resolution := some 2,
    value := 1, tags := [] }

def mGoodSingle : SingleMetric :=
  { name := "b", date := some "1970-01-01T00:00:00.000Z", unit := "u", resolution := none,
    value := 2, tags := [] }

def mNoDate : SingleMetric :=
  { name := "a", date := none, unit := "u", resolution := none, value := 1, tags := [] }

/-- Counterexample to C10: an invalid-resolution error leaves the pairs
already pushed into the shared `_datum` buffer behind, so the builder
state differs from the pre-call state and the next successful add
serializes stale pairs: its result differs from the result the same add
produces when the failing call never happened. -/
theorem c10_counterexample :
    (addSingleMetric id (newBuilder "t") mBadRes).isOk = false ∧
    resState (addSingleMetric id (newBuilder "t") mBadRes) ≠ newBuilder "t" ∧
    (addSingleMetric id (resState (addSingleMetric id (newBuilder "t") mBadRes))
        mGoodSingle).isOk = true ∧
    (addSingleMetric id (newBuilder "t") mGoodSingle).isOk = true ∧
    resState (addSingleMetric id (resState (addSingleMetric id (newBuilder "t") mBadRes))
        mGoodSingle) ≠
      resState (addSingleMetric id (newBuilder "t") mGoodSingle) := by
  refine ⟨rfl, by decide, rfl, rfl, by decide⟩

/-- C10 amended: a validation error raised while building the datum leaves
the accumulator chain (bodies, byte lengths, datum counts) untouched; if
the error is a missing date the whole state, pending buffer included, is
exactly as before the call; but a validation error raised after pairs
were pushed retains those pairs in the pending buffer. -/
theorem c10_amended (unitLong : String → String) (b : Builder) :
    (∀ (m : SingleMetric) e p,
      singleDatum unitLong b.pendingDatum m = .error (e, p) →
      addSingleMetric unitLong b m = .error (e, { b with pendingDatum := p })) ∧
    (∀ (m : SummaryMetric) e p,
      summaryDatum unitLong b.pendingDatum m = .error (e, p) →
      addSummaryMetric unitLong b m = .error (e, { b with pendingDatum := p })) ∧
    (∀ (m : SingleMetric), m.date = none →
      addSingleMetric unitLong b m = .error ("Date is required", b)) ∧
    (∀ (m : SummaryMetric), m.date = none →
      addSummaryMetric unitLong b m = .error ("Date is required", b)) := by
  refine ⟨?_, ?_, ?_, ?_⟩
  · intro m e p h
    simp [addSingleMetric, h]
  · intro m e p h
    simp [addSummaryMetric, h]
  · intro m hd
    simp [addSingleMetric, singleDatum, addDatumProps, hd]
  · intro m hd
    simp [addSummaryMetric, summaryDatum, addDatumProps, hd]

/-- Witness for C10 amended: the missing-date error changes nothing. -/
theorem c10_amended_witness :
    mNoDate.date = none ∧
    addSingleMetric id (newBuilder "t") mNoDate = .error ("Date is required", newBuilder "t") :=
  ⟨rfl, (c10_amended id (newBuilder "t")).2.2.1 mNoDate rfl⟩

theorem flatMap_replicate_singleton {α : Type} (f : α → List α) (x : α) (hf : f x = [x]) :
    ∀ n, (List.replicate n x).flatMap f = List.replicate n x := by
  intro n
  induction n with
  | zero => rfl
  | succ n ih => simp [List.replicate_succ, List.flatMap_cons, hf, ih]

def bigNs : String := String.mk (List.replicate 41000 'a')

theorem esc_bigNs : encodeRfc3986 (esc bigNs) = bigNs := by
  have h1 : esc bigNs = bigNs := by
    show String.mk ((List.replicate 41000 'a').flatMap _) = _
    rw [flatMap_replicate_singleton _ _ rfl]
    rfl
  rw [h1]
  show String.mk ((List.replicate 41000 'a').flatMap _) = _
  rw [flatMap_replicate_singleton _ _ rfl]
  rfl

theorem utf8Len_bigNs : utf8Len bigNs = 41000 := by
  show (List.map Char.utf8Size (List.replicate 41000 'a')).sum = 41000
  rw [List.map_replicate, List.sum_replicate, smul_eq_mul,
    show ('a'.utf8Size) = 1 from rfl, Nat.mul_one]

theorem utf8Len_preamble_bigNs : utf8Len (preambleStr bigNs) = 41050 := by
  show utf8Len (encodeKeyValue "Action" "PutMetricData" ++ "&" ++
    encodeKeyValue "Version" "2010-08-01" ++ "&" ++
    ("Namespace" ++ "=" ++ encodeRfc3986 (esc bigNs))) = 41050
  rw [esc_bigNs]
  simp only [utf8Len_append, utf8Len_bigNs]
  decide

seal freshChildAdd in
theorem chainAddDatum_nilcase (ns : String) (d : List String) :
    chainAddDatum ns d [] = .error ("no accumulator", []) := by
  simp only [chainAddDatum]

theorem freshChildAdd_overflow (ns : String) (d : List String)
    (h : REQ_BYTE_LIMIT < utf8Len (preambleStr ns) + utf8Len (mkDatumStr 1 d)) :
    freshChildAdd ns d = .error ("Datum is too big",
      { body := preambleStr ns, byteLength := utf8Len (preambleStr ns), datumCount := 0 }) := by
  simp only [freshChildAdd, accWithPreamble, emptyAcc, if_true]
  have hgt : utf8Len (preambleStr ns) + utf8Len (mkDatumStr (0 + 1) d) > REQ_BYTE_LIMIT := by
    simpa using h
  simp [hgt]

seal freshChildAdd in
theorem chainAddDatum_singleton_overflow (ns : String) (d : List String)
    (h : REQ_BYTE_LIMIT < utf8Len (preambleStr ns) + utf8Len (mkDatumStr 1 d)) :
    chainAddDatum ns d [emptyAcc] = .error ("Datum is too big",
      [{ body := preambleStr ns, byteLength := utf8Len (preambleStr ns), datumCount := 0 },
       { body := preambleStr ns, byteLength := utf8Len (preambleStr ns), datumCount := 0 }]) := by
  simp only [chainAddDatum, accWithPreamble, emptyAcc, if_true]
  have hgt : utf8Len (preambleStr ns) + utf8Len (mkDatumStr (0 + 1) d) > REQ_BYTE_LIMIT := by
    simpa using h
  simp [hgt, freshChildAdd_overflow ns d h]

def mTiny : SingleMetric :=
  { name := "n", date := some "1970-01-01T00:00:00.000Z", unit := "u", resolution := none,
    value := 1, tags := [] }

def dTiny : List String :=
  ["MetricName=n", "Unit=u", "Timestamp=1970-01-01T00%3A00%3A00Z", "Value=1"]

theorem singleDatum_mTiny : singleDatum id [] mTiny = .ok dTiny := rfl

def bigAcc : Acc :=
  { body := preambleStr bigNs, byteLength := utf8Len (preambleStr bigNs), datumCount := 0 }

theorem addSingleMetric_okDatum (uL : String → String) (b : Builder) (m : SingleMetric)
    (d : List String) (hok : singleDatum uL b.pendingDatum m = .ok d) :
    addSingleMetric uL b m = endDatum b d := by
  simp only [addSingleMetric, hok]

theorem endDatum_error (b : Builder) (p : List String) (e : String) (ch : List Acc)
    (h : chainAddDatum b.ns p b.chain = .error (e, ch)) :
    endDatum b p = .error (e, { b with chain := ch, pendingDatum := p }) := by
  simp only [endDatum, h]

seal bigNs in
seal preambleStr in
seal esc in
theorem addSingle_bigNs :
    addSingleMetric id (newBuilder bigNs) mTiny = .error ("Datum is too big",
      { ns := bigNs, chain := [bigAcc, bigAcc], pendingDatum := dTiny }) := by
  have hover : chainAddDatum (newBuilder bigNs).ns dTiny (newBuilder bigNs).chain =
      .error ("Datum is too big", [bigAcc, bigAcc]) :=
    chainAddDatum_singleton_overflow bigNs dTiny
      (by rw [utf8Len_preamble_bigNs]; simp only [REQ_BYTE_LIMIT]; omega)
  have h1 : addSingleMetric id (newBuilder bigNs) mTiny = endDatum (newBuilder bigNs) dTiny :=
    addSingleMetric_okDatum id (newBuilder bigNs) mTiny dTiny singleDatum_mTiny
  have h2 := endDatum_error (newBuilder bigNs) dTiny "Datum is too big" [bigAcc, bigAcc] hover
  exact h1.trans h2

seal bigNs in
seal preambleStr in
seal esc in
theorem c8_counterexample :
    (addSingleMetric id (newBuilder bigNs) mTiny).isOk = false ∧
    hasData (resState (addSingleMetric id (newBuilder bigNs) mTiny)) = true ∧
    ∀ a ∈ (resState (addSingleMetric id (newBuilder bigNs) mTiny)).chain, a.datumCount = 0 := by
  rw [addSingle_bigNs]
  refine ⟨rfl, ?_, ?_⟩
  · simp [resState, hasData, accHasData, bigAcc, utf8Len_preamble_bigNs]
  · intro a ha
    simp only [resState, List.mem_cons, List.not_mem_nil, or_false] at ha
    rcases ha with h | h <;> rw [h] <;> rfl

/-- The invariant `_byteLength` = UTF-8 length of `_body`. -/
def WfAcc (a : Acc) : Prop := a.byteLength = utf8Len a.body

theorem wf_emptyAcc : WfAcc emptyAcc := rfl

theorem preambleStr_ne_empty (ns : String) : preambleStr ns ≠ "" :=
  append_ne_empty_left _ (append_ne_empty_left _ (append_ne_empty_left _
    (append_ne_empty_left _ (by decide))))

theorem wf_accWithPreamble {a : Acc} (ns : String) (h : WfAcc a) :
    WfAcc (accWithPreamble ns a) := by
  unfold accWithPreamble
  split
  · rfl
  · exact h

theorem accWithPreamble_body_ne (ns : String) (a : Acc) :
    (accWithPreamble ns a).body ≠ "" := by
  unfold accWithPreamble
  split
  · exact preambleStr_ne_empty ns
  · assumption

theorem wf_accAppend {a : Acc} (str : String) (h : WfAcc a) :
    WfAcc (accAppend a str (utf8Len str)) := by
  simp only [WfAcc, accAppend, utf8Len_append]
  exact congrArg (· + utf8Len str) h

seal preambleStr in
seal esc in
theorem freshChildAdd_ok_wf (ns : String) (d : List String) (c : Acc)
    (h : freshChildAdd ns d = .ok c) : WfAcc c ∧ c.body ≠ "" := by
  simp only [freshChildAdd] at h
  split at h
  · cases h
  · cases h
    constructor
    · exact wf_accAppend _ (wf_accWithPreamble ns wf_emptyAcc)
    · show (accWithPreamble ns emptyAcc).body ++ _ ≠ ""
      exact append_ne_empty_left _ (accWithPreamble_body_ne ns emptyAcc)

seal preambleStr in
seal esc in
seal freshChildAdd in
theorem chainAddDatum_ok_wf (ns : String) (d : List String) :
    ∀ (ch ch2 : List Acc), (∀ a ∈ ch, WfAcc a) → chainAddDatum ns d ch = .ok ch2 →
      (∀ a ∈ ch2, WfAcc a) ∧ ∃ c2 rest2, ch2 = c2 :: rest2 ∧ c2.body ≠ "" := by
  intro ch
  induction ch with
  | nil =>
    intro ch2 _ h
    rw [chainAddDatum_nilcase] at h
    cases h
  | cons a rest ih =>
    intro ch2 hwf h
    cases hr : rest with
    | nil =>
      subst hr
      simp only [chainAddDatum] at h
      split at h
      · cases hf : freshChildAdd ns d with
        | error e => rw [hf] at h; cases h
        | ok c =>
          rw [hf] at h
          simp only at h
          cases h
          have hc := freshChildAdd_ok_wf ns d c hf
          refine ⟨?_, accWithPreamble ns a, [c], rfl, accWithPreamble_body_ne ns a⟩
          intro x hx
          simp only [List.mem_cons, List.not_mem_nil, or_false] at hx
          rcases hx with rfl | rfl
          · exact wf_accWithPreamble ns (hwf a (by simp))
          · exact hc.1
      · cases h
        refine ⟨?_, _, [], rfl, ?_⟩
        · intro x hx
          simp only [List.mem_cons, List.not_mem_nil, or_false] at hx
          subst hx
          exact wf_accAppend _ (wf_accWithPreamble ns (hwf a (by simp)))
        · show (accWithPreamble ns a).body ++ _ ≠ ""
          exact append_ne_empty_left _ (accWithPreamble_body_ne ns a)
    | cons b rest2 =>
      subst hr
      simp only [chainAddDatum] at h
      split at h
      · cases hrec : chainAddDatum ns d (b :: rest2) with
        | error e => rw [hrec] at h; cases h
        | ok ch3 =>
          rw [hrec] at h
          simp only at h
          cases h
          obtain ⟨hwf3, c2, rest3, hsh, hne⟩ :=
            ih ch3 (fun x hx => hwf x (List.mem_cons_of_mem a hx)) hrec
          refine ⟨?_, accWithPreamble ns a, ch3, rfl, accWithPreamble_body_ne ns a⟩
          intro x hx
          rcases List.mem_cons.1 hx with rfl | hx
          · exact wf_accWithPreamble ns (hwf a (by simp))
          · exact hwf3 x hx
      · cases h
        refine ⟨?_, _, b :: rest2, rfl, ?_⟩
        · intro x hx
          rcases List.mem_cons.1 hx with rfl | hx
          · exact wf_accAppend _ (wf_accWithPreamble ns (hwf a (by simp)))
          · exact hwf x (List.mem_cons_of_mem a hx)
        · show (accWithPreamble ns a).body ++ _ ≠ ""
          exact append_ne_empty_left _ (accWithPreamble_body_ne ns a)

theorem addMetric_ok_chain (uL : String → String) (b : Builder) (m : Metric) (b2 : Builder)
    (h : addMetric uL b m = .ok b2) :
    b2.ns = b.ns ∧ b2.pendingDatum = [] ∧
    ∃ p, chainAddDatum b.ns p b.chain = .ok b2.chain := by
  cases m with
  | single m =>
    simp only [addMetric, addSingleMetric] at h
    cases hs : singleDatum uL b.pendingDatum m with
    | error e => rw [hs] at h; simp at h
    | ok p =>
      rw [hs] at h
      simp only [endDatum] at h
      cases hc : chainAddDatum b.ns p b.chain with
      | error e => rw [hc] at h; simp at h
      | ok ch =>
        rw [hc] at h
        simp only [Except.ok.injEq] at h
        subst h
        exact ⟨rfl, rfl, p, hc⟩
  | summary m =>
    simp only [addMetric, addSummaryMetric] at h
    cases hs : summaryDatum uL b.pendingDatum m with
    | error e => rw [hs] at h; simp at h
    | ok p =>
      rw [hs] at h
      simp only [endDatum] at h
      cases hc : chainAddDatum b.ns p b.chain with
      | error e => rw [hc] at h; simp at h
      | ok ch =>
        rw [hc] at h
        simp only [Except.ok.injEq] at h
        subst h
        exact ⟨rfl, rfl, p, hc⟩

theorem addMetrics_shape (uL : String → String) (ms : List Metric) :
    ∀ (b b2 : Builder), (∀ a ∈ b.chain, WfAcc a) →
    addMetrics uL b ms = .ok b2 →
    (∀ a ∈ b2.chain, WfAcc a) ∧ (ms = [] → b2 = b) ∧
    (ms ≠ [] → ∃ c2 r2, b2.chain = c2 :: r2 ∧ c2.body ≠ "") := by
  induction ms with
  | nil =>
    intro b b2 hwf h
    simp only [addMetrics, Except.ok.injEq] at h
    subst h
    exact ⟨hwf, fun _ => rfl, fun hne => absurd rfl hne⟩
  | cons m ms ih =>
    intro b b2 hwf h
    simp only [addMetrics] at h
    cases ham : addMetric uL b m with
    | error e => rw [ham] at h; simp at h
    | ok b1 =>
      rw [ham] at h
      obtain ⟨hns, hpend, p, hc⟩ := addMetric_ok_chain uL b m b1 ham
      obtain ⟨hwf1, c1, r1, hsh1, hne1⟩ := chainAddDatum_ok_wf b.ns p b.chain b1.chain hwf hc
      obtain ⟨hwf2, hnil2, hne2⟩ := ih b1 b2 hwf1 h
      refine ⟨hwf2, fun hcon => absurd hcon (List.cons_ne_nil m ms), fun _ => ?_⟩
      cases hms : ms with
      | nil =>
        subst hms
        rw [hnil2 rfl]
        exact ⟨c1, r1, hsh1, hne1⟩
      | cons m2 ms2 =>
        exact hne2 (by simp [hms])

/-- C8 amended: hasData is false on a fresh or just-flushed builder and,
along any sequence of successful adds, true iff at least one datum was
added; but a datum-too-big failure can leave hasData true with no datum
in any accumulator (see the counterexample). -/
theorem c8_amended :
    (∀ ns, hasData (newBuilder ns) = false) ∧
    (∀ b, hasData (sendSnapshot b).2 = false) ∧
    (∀ (uL : String → String) (b b2 : Builder) (ms : List Metric),
      (∀ a ∈ b.chain, a = emptyAcc) →
      addMetrics uL b ms = .ok b2 → (hasData b2 = true ↔ ms ≠ [])) := by
  refine ⟨fun ns => rfl, fun b => ?_, ?_⟩
  · cases hch : b.chain with
    | nil => simp [sendSnapshot, hasData, hch, accHasData, emptyAcc]
    | cons a rest => simp [sendSnapshot, hasData, hch, accHasData, emptyAcc]
  intro uL b b2 ms hempty h
  have hwf : ∀ a ∈ b.chain, WfAcc a := fun a ha => by rw [hempty a ha]; exact wf_emptyAcc
  obtain ⟨hwf2, hnil, hne⟩ := addMetrics_shape uL ms b b2 hwf h
  constructor
  · intro hd
    intro hms
    subst hms
    rw [hnil rfl] at hd
    cases hch : b.chain with
    | nil => rw [hasData, hch] at hd; cases hd
    | cons c r =>
      rw [hasData, hch] at hd
      have := hempty c (by rw [hch]; simp)
      rw [this] at hd
      cases hd
  · intro hms
    obtain ⟨c2, r2, hsh, hneb⟩ := hne hms
    have hwfc : WfAcc c2 := hwf2 c2 (by rw [hsh]; simp)
    rw [hasData, hsh]
    simp only [List.headD_cons, accHasData, ne_eq, decide_not]
    have : c2.byteLength ≠ 0 := by
      rw [hwfc]
      intro h0
      exact hneb (utf8Len_eq_zero.mp h0)
    simp [this]

/-- Witness for C8 amended: one successful add turns hasData on. -/
theorem c8_amended_witness :
    (∀ a ∈ (newBuilder "t").chain, a = emptyAcc) ∧
    addMetrics id (newBuilder "t") [.single mGoodSingle] =
      .ok (resState (addMetrics id (newBuilder "t") [.single mGoodSingle])) ∧
    (hasData (resState (addMetrics id (newBuilder "t") [.single mGoodSingle])) = true ↔
      ([Metric.single mGoodSingle] : List Metric) ≠ []) :=
  ⟨by decide, rfl,
    c8_amended.2.2 id (newBuilder "t")
      (resState (addMetrics id (newBuilder "t") [.single mGoodSingle]))
      [.single mGoodSingle] (by decide) rfl⟩

/-- `firstError || err` of the source. -/
def firstErrAcc (fe e : Option JsError) : Option JsError :=
  match fe with
  | some e0 => some e0
  | none => e

theorem foldl_firstErrAcc_some (l : List (Option JsError)) (e0 : JsError) :
    l.foldl firstErrAcc (some e0) = some e0 := by
  induction l with
  | nil => rfl
  | cons x l ih => simpa [firstErrAcc] using ih

theorem foldl_firstErrAcc_find (l : List (Option JsError)) :
    l.foldl firstErrAcc none = (l.find? (fun e => e.isSome)).join := by
  induction l with
  | nil => rfl
  | cons x l ih =>
    cases x with
    | none => simpa [firstErrAcc, List.find?] using ih
    | some e => simp [firstErrAcc, List.find?, foldl_firstErrAcc_some, Option.join]

theorem foldl_firstErrAcc_none_iff (l : List (Option JsError)) :
    l.foldl firstErrAcc none = none ↔ ∀ e ∈ l, e = none := by
  induction l with
  | nil => simp
  | cons x l ih =>
    cases x with
    | none => simpa [firstErrAcc] using ih
    | some e => simp [firstErrAcc, foldl_firstErrAcc_some]

theorem bodyLoop_exhaust (E : Bool) (T : Nat) (oc : Nat → Nat → AttemptOutcome) (i : Nat) :
    ∀ (k attempt : Nat), attempt + k = MAX_ATTEMPTS →
    (∀ a, attempt ≤ a → a < MAX_ATTEMPTS →
      shouldRetry E a (finishArgs (oc i a) T).1 (finishArgs (oc i a) T).2 = true) →
    bodyLoop E T oc i attempt = (finishArgs (oc i MAX_ATTEMPTS) T).1 := by
  intro k
  induction k with
  | zero =>
    intro attempt hsum hall
    have ha : attempt = MAX_ATTEMPTS := by omega
    subst ha
    rw [bodyLoop]
    rw [dif_neg]
    intro hc
    exact absurd (shouldRetry_attempt_lt hc) (by omega)
  | succ k ih =>
    intro attempt hsum hall
    rw [bodyLoop]
    rw [dif_pos (hall attempt le_rfl (by omega))]
    exact ih (attempt + 1) (by omega) (fun a ha h2 => hall a (by omega) h2)

theorem sendBatch_body_phase (E : Bool) (D T : Nat) (sgn : Nat → Nat → Option String)
    (oc : Nat → Nat → AttemptOutcome) (L : Nat) (hsgn : ∀ j a, sgn j a = none)
    (i : Nat) (hi : i < L) :
    ∀ (k attempt : Nat) (fe : Option JsError), MAX_ATTEMPTS - attempt ≤ k →
    (sendBatch E D T sgn oc L i attempt fe).1 =
      (if i < L - 1 then
        (sendBatch E D T sgn oc L (i + 1) 1 (firstErrAcc fe (bodyLoop E T oc i attempt))).1
      else firstErrAcc fe (bodyLoop E T oc i attempt)) := by
  intro k
  induction k with
  | zero =>
    intro attempt fe hk
    have h10 : ¬(shouldRetry E attempt (finishArgs (oc i attempt) T).1
        (finishArgs (oc i attempt) T).2 = true) := by
      intro hc
      exact absurd (shouldRetry_attempt_lt hc) (by omega)
    rw [sendBatch, bodyLoop]
    rw [dif_neg (by omega : ¬ L ≤ i)]
    rw [hsgn i attempt]
    dsimp only
    rw [dif_neg h10, dif_neg h10]
    split <;> rfl
  | succ k ih =>
    intro attempt fe hk
    by_cases hR : shouldRetry E attempt (finishArgs (oc i attempt) T).1
        (finishArgs (oc i attempt) T).2 = true
    · have halt := shouldRetry_attempt_lt hR
      rw [sendBatch, bodyLoop]
      rw [dif_neg (by omega : ¬ L ≤ i)]
      rw [hsgn i attempt]
      dsimp only
      rw [dif_pos hR, dif_pos hR]
      exact ih (attempt + 1) fe (by omega)
    · rw [sendBatch, bodyLoop]
      rw [dif_neg (by omega : ¬ L ≤ i)]
      rw [hsgn i attempt]
      dsimp only
      rw [dif_neg hR, dif_neg hR]
      split <;> rfl

theorem sendBatch_decomp (E : Bool) (D T : Nat) (sgn : Nat → Nat → Option String)
    (oc : Nat → Nat → AttemptOutcome) (L : Nat) (hsgn : ∀ j a, sgn j a = none) :
    ∀ (n i : Nat) (fe : Option JsError), 0 < n → i + n = L →
    (sendBatch E D T sgn oc L i 1 fe).1 =
      ((List.range' i n).map (fun j => bodyLoop E T oc j 1)).foldl firstErrAcc fe := by
  intro n
  induction n with
  | zero => intro i fe hpos; omega
  | succ n ih =>
    intro i fe _ hsum
    have hi : i < L := by omega
    rw [sendBatch_body_phase E D T sgn oc L hsgn i hi MAX_ATTEMPTS 1 fe (by omega)]
    cases n with
    | zero =>
      rw [if_neg (by omega : ¬ i < L - 1)]
      simp [List.range']
    | succ n2 =>
      rw [if_pos (by omega : i < L - 1)]
      rw [ih (i + 1) (firstErrAcc fe (bodyLoop E T oc i 1)) (by omega) (by omega)]
      simp [List.range']

theorem sendBatch_delays (E : Bool) (D T : Nat) (sgn : Nat → Nat → Option String)
    (oc : Nat → Nat → AttemptOutcome) (L : Nat) :
    ∀ (k i a : Nat) (fe : Option JsError), (L - i) * 11 + (10 - a) ≤ k →
    ∀ d, SendEvent.delayed d ∈ (sendBatch E D T sgn oc L i a fe).2 → d = D := by
  intro k
  induction k with
  | zero =>
    intro i a fe hk d hd
    have hLi : L ≤ i := by omega
    rw [sendBatch, dif_pos hLi] at hd
    cases hd
  | succ k ih =>
    intro i a fe hk d hd
    rw [sendBatch] at hd
    by_cases hLi : L ≤ i
    · rw [dif_pos hLi] at hd
      cases hd
    · rw [dif_neg hLi] at hd
      cases hs : sgn i a with
      | some e => rw [hs] at hd; cases hd
      | none =>
        rw [hs] at hd
        dsimp only at hd
        by_cases hR : shouldRetry E a (finishArgs (oc i a) T).1 (finishArgs (oc i a) T).2 = true
        · rw [dif_pos hR] at hd
          have halt : a < 10 := shouldRetry_attempt_lt hR
          simp only [List.mem_cons] at hd
          rcases hd with h | h | h
          · exact absurd h (by simp)
          · exact (by simpa using h : d = D)
          · exact ih i (a + 1) fe (by omega) d h
        · rw [dif_neg hR] at hd
          split at hd
          · simp only [List.mem_cons] at hd
            rcases hd with h | h
            · exact absurd h (by simp)
            · rename_i hlt
              exact ih (i + 1) 1 _ (by omega) d h
          · simp only [List.mem_cons, List.not_mem_nil, or_false] at hd
            exact absurd hd (by simp)

/-- C4: with signing always succeeding, a split batch is transmitted
sequentially; each body runs its own attempt loop starting at attempt 1;
the final callback argument is the fold of per-body outcomes keeping the
first failure, equivalently the first body-level failure in order, and is
no error iff every body was delivered; a body whose attempts are all
retryable up to the cap fails with the most recent (tenth) error; and
every scheduled retry delay equals the configured fixed delay. -/
theorem c4_sequential_retry (E : Bool) (D T : Nat) (sgn : Nat → Nat → Option String)
    (oc : Nat → Nat → AttemptOutcome) (L : Nat)
    (hsgn : ∀ i a, sgn i a = none) (hL : 0 < L) :
    (sendBatch E D T sgn oc L 0 1 none).1 =
      ((List.range' 0 L).map (fun j => bodyLoop E T oc j 1)).foldl firstErrAcc none ∧
    (sendBatch E D T sgn oc L 0 1 none).1 =
      (((List.range' 0 L).map (fun j => bodyLoop E T oc j 1)).find?
        (fun e => e.isSome)).join ∧
    ((sendBatch E D T sgn oc L 0 1 none).1 = none ↔
      ∀ e ∈ (List.range' 0 L).map (fun j => bodyLoop E T oc j 1), e = none) ∧
    (∀ i, (∀ a, 1 ≤ a → a < MAX_ATTEMPTS →
        shouldRetry E a (finishArgs (oc i a) T).1 (finishArgs (oc i a) T).2 = true) →
      bodyLoop E T oc i 1 = (finishArgs (oc i MAX_ATTEMPTS) T).1) ∧
    (∀ d, SendEvent.delayed d ∈ (sendBatch E D T sgn oc L 0 1 none).2 → d = D) := by
  have hdec := sendBatch_decomp E D T sgn oc L hsgn L 0 none hL (by omega)
  refine ⟨hdec, ?_, ?_, ?_, ?_⟩
  · rw [hdec]
    exact foldl_firstErrAcc_find _
  · rw [hdec]
    exact foldl_firstErrAcc_none_iff _
  · intro i hall
    exact bodyLoop_exhaust E T oc i 9 1 (by simp [MAX_ATTEMPTS]) hall
  · intro d hd
    exact sendBatch_delays E D T sgn oc L (L * 11 + 9) 0 1 none (by omega) d hd

/-- Witness for C4: two bodies, both delivered on the first attempt. -/
theorem c4_sequential_retry_witness :
    (∀ i a, (fun (_ _ : Nat) => (none : Option String)) i a = none) ∧ 0 < 2 ∧
    ((sendBatch true 5 60000 (fun _ _ => none) (fun _ _ => .response 200) 2 0 1 none).1 =
      ((List.range' 0 2).map
        (fun j => bodyLoop true 60000 (fun _ _ => .response 200) j 1)).foldl firstErrAcc none ∧
    (sendBatch true 5 60000 (fun _ _ => none) (fun _ _ => .response 200) 2 0 1 none).1 =
      (((List.range' 0 2).map
        (fun j => bodyLoop true 60000 (fun _ _ => .response 200) j 1)).find?
          (fun e => e.isSome)).join ∧
    ((sendBatch true 5 60000 (fun _ _ => none) (fun _ _ => .response 200) 2 0 1 none).1 = none ↔
      ∀ e ∈ (List.range' 0 2).map
        (fun j => bodyLoop true 60000 (fun _ _ => .response 200) j 1), e = none) ∧
    (∀ i, (∀ a, 1 ≤ a → a < MAX_ATTEMPTS →
        shouldRetry true a (finishArgs ((fun (_ _ : Nat) => AttemptOutcome.response 200) i a) 60000).1
          (finishArgs ((fun (_ _ : Nat) => AttemptOutcome.response 200) i a) 60000).2 = true) →
      bodyLoop true 60000 (fun _ _ => .response 200) i 1 =
        (finishArgs ((fun (_ _ : Nat) => AttemptOutcome.response 200) i MAX_ATTEMPTS) 60000).1) ∧
    (∀ d, SendEvent.delayed d ∈
        (sendBatch true 5 60000 (fun _ _ => none) (fun _ _ => .response 200) 2 0 1 none).2 →
      d = 5)) :=
  ⟨fun _ _ => rfl, by decide,
    c4_sequential_retry true 5 60000 (fun _ _ => none) (fun _ _ => .response 200) 2
      (fun _ _ => rfl) (by decide)⟩

/-! ## The chunked-serialization specification for C2, from the words of
the claim: the submission sequence is cut into consecutive chunks of at
most 20 datums, and each chunk serializes into one body with member
indices 1, 2, ... -/

def chunkStep {α : Type} (rcs : List (List α)) (d : α) : List (List α) :=
  match rcs with
  | [] => [[d]]
  | c :: cs => if c.length = REQ_DATUM_LIMIT then [d] :: c :: cs else (c ++ [d]) :: cs

/-- The chunks of the submission sequence, in submission order. -/
def chunks20 {α : Type} (ds : List α) : List (List α) := (ds.foldl chunkStep []).reverse

/-- Serialization of one chunk with member indices starting at `i` and
increasing consecutively. -/
def chunkStrFrom (i : Nat) : List (List String) → String
  | [] => ""
  | d :: rest => mkDatumStr i d ++ chunkStrFrom (i + 1) rest

/-- The accumulator a chunk fills. -/
def accOf (ns : String) (c : List (List String)) : Acc :=
  { body := preambleStr ns ++ chunkStrFrom 1 c
    byteLength := utf8Len (preambleStr ns ++ chunkStrFrom 1 c)
    datumCount := c.length }

/-- The builder chain corresponding to a reversed chunk list. -/
def chainOfRev (ns : String) (rcs : List (List (List String))) : List Acc :=
  match rcs with
  | [] => [emptyAcc]
  | _ :: _ => (rcs.map (accOf ns)).reverse

/-- Bound on the serialized size of a datum at every member index the
count ceiling allows. -/
def SmallDatum (M : Nat) (d : List String) : Prop :=
  ∀ i, i < 21 → 1 ≤ i → utf8Len (mkDatumStr i d) ≤ M

instance (M : Nat) (d : List String) : Decidable (SmallDatum M d) :=
  Nat.decidableBallLT 21 fun i _ => 1 ≤ i → utf8Len (mkDatumStr i d) ≤ M

def RcsInv (M : Nat) (rcs : List (List (List String))) : Prop :=
  (∀ c ∈ rcs, ∀ d ∈ c, SmallDatum M d) ∧
  (match rcs with
   | [] => True
   | c :: cs => 1 ≤ c.length ∧ c.length ≤ REQ_DATUM_LIMIT ∧
      ∀ c2 ∈ cs, c2.length = REQ_DATUM_LIMIT)

theorem chunkStrFrom_append (d : List String) :
    ∀ (c : List (List String)) (i : Nat),
    chunkStrFrom i (c ++ [d]) = chunkStrFrom i c ++ mkDatumStr (i + c.length) d := by
  intro c
  induction c with
  | nil =>
    intro i
    show mkDatumStr i d ++ "" = "" ++ mkDatumStr (i + 0) d
    simp
  | cons x c ih =>
    intro i
    show mkDatumStr i x ++ chunkStrFrom (i + 1) (c ++ [d]) = _
    rw [ih (i + 1)]
    rw [show i + 1 + c.length = i + (c.length + 1) by omega]
    show _ = (mkDatumStr i x ++ chunkStrFrom (i + 1) c) ++ mkDatumStr (i + (c.length + 1)) d
    rw [String.append_assoc]

theorem chunkStrFrom_bound (M : Nat) :
    ∀ (c : List (List String)) (i : Nat), (∀ d ∈ c, SmallDatum M d) →
    1 ≤ i → i + c.length ≤ 21 → utf8Len (chunkStrFrom i c) ≤ c.length * M := by
  intro c
  induction c with
  | nil =>
    intro i _ _ _
    show utf8Len "" ≤ 0 * M
    simp [utf8Len]
  | cons x c ih =>
    intro i hsmall h1 h21
    show utf8Len (mkDatumStr i x ++ chunkStrFrom (i + 1) c) ≤ (c.length + 1) * M
    rw [utf8Len_append]
    have hx : utf8Len (mkDatumStr i x) ≤ M := by
      have := hsmall x (by simp)
      exact this i (by simp at h21 ⊢; omega) h1
    have hc : utf8Len (chunkStrFrom (i + 1) c) ≤ c.length * M :=
      ih (i + 1) (fun d hd => hsmall d (by simp [hd])) (by omega) (by simp at h21 ⊢; omega)
    nlinarith

theorem preambleStr_len_pos (ns : String) : 0 < utf8Len (preambleStr ns) := by
  simp only [preambleStr, utf8Len_append]
  have h : utf8Len (encodeKeyValue "Action" "PutMetricData") = 20 := by decide
  omega

theorem accWithPreamble_of_ne {a : Acc} (ns : String) (h : a.body ≠ "") :
    accWithPreamble ns a = a := by
  unfold accWithPreamble
  rw [if_neg h]

theorem accOf_body_ne (ns : String) (c : List (List String)) : (accOf ns c).body ≠ "" :=
  append_ne_empty_left _ (preambleStr_ne_empty ns)

seal preambleStr in
seal esc in
theorem freshChildAdd_fits (ns : String) (d : List String) (M : Nat)
    (hd : SmallDatum M d)
    (hP : utf8Len (preambleStr ns) + REQ_DATUM_LIMIT * M ≤ REQ_BYTE_LIMIT) :
    freshChildAdd ns d = .ok (accOf ns [d]) := by
  have hbl : utf8Len (mkDatumStr 1 d) ≤ M := hd 1 (by omega) (by omega)
  simp only [freshChildAdd, accWithPreamble, emptyAcc, if_true]
  rw [if_neg]
  · show Except.ok (accAppend _ (mkDatumStr (0 + 1) d) _) = _
    simp only [accAppend, accOf]
    have hb : preambleStr ns ++ mkDatumStr (0 + 1) d = preambleStr ns ++ chunkStrFrom 1 [d] := by
      show _ = preambleStr ns ++ (mkDatumStr 1 d ++ "")
      simp
    refine congrArg Except.ok ?_
    simp only [Acc.mk.injEq]
    refine ⟨by simpa using hb, ?_, rfl⟩
    rw [show (0 + 1) = 1 from rfl]
    have : utf8Len (preambleStr ns ++ chunkStrFrom 1 [d]) =
        utf8Len (preambleStr ns) + utf8Len (mkDatumStr 1 d) := by
      rw [utf8Len_append]
      show _ = utf8Len (preambleStr ns) + utf8Len (mkDatumStr 1 d)
      have h2 : chunkStrFrom 1 [d] = mkDatumStr 1 d ++ "" := rfl
      rw [h2, utf8Len_append]
      simp [utf8Len]
    omega
  · simp only [Bool.or_eq_true, not_or, decide_eq_true_eq]
    refine ⟨by simp [REQ_DATUM_LIMIT], ?_⟩
    simp only [REQ_BYTE_LIMIT, REQ_DATUM_LIMIT] at hP ⊢
    rw [show (0 + 1) = 1 from rfl]
    omega

seal preambleStr in
seal esc in
seal freshChildAdd in
theorem chainAddDatum_full_front (ns : String) (d : List String) :
    ∀ (front rest : List Acc), rest ≠ [] →
    (∀ a ∈ front, a.body ≠ "" ∧ REQ_DATUM_LIMIT ≤ a.datumCount) →
    chainAddDatum ns d (front ++ rest) =
      (match chainAddDatum ns d rest with
       | .error (e, ch) => .error (e, front ++ ch)
       | .ok ch => .ok (front ++ ch)) := by
  intro front
  induction front with
  | nil =>
    intro rest _ _
    cases hr : chainAddDatum ns d rest with
    | error e =>
      obtain ⟨e1, ch⟩ := e
      simp [hr]
    | ok ch => simp [hr]
  | cons a front ih =>
    intro rest hne hfull
    have hb : a.body ≠ "" := (hfull a (by simp)).1
    have hc : REQ_DATUM_LIMIT ≤ a.datumCount := (hfull a (by simp)).2
    cases hfr : front ++ rest with
    | nil =>
      exfalso
      rcases List.append_eq_nil.mp hfr with ⟨_, h2⟩
      exact hne h2
    | cons b tl =>
      have hstep : chainAddDatum ns d (a :: (b :: tl)) =
          (match chainAddDatum ns d (b :: tl) with
           | .error (e, ch) => .error (e, a :: ch)
           | .ok ch => .ok (a :: ch)) := by
        simp only [chainAddDatum]
        rw [accWithPreamble_of_ne ns hb]
        rw [if_pos (by simp only [Bool.or_eq_true, decide_eq_true_eq]; exact Or.inl hc)]
      rw [List.cons_append, hfr, hstep, ← hfr, ih rest hne (fun x hx => hfull x (by simp [hx]))]
      cases hr : chainAddDatum ns d rest with
      | error e =>
        obtain ⟨e1, ch⟩ := e
        simp [hr]
      | ok ch => simp [hr]

theorem accOf_nil (ns : String) :
    accOf ns [] = ⟨preambleStr ns, utf8Len (preambleStr ns), 0⟩ := by
  simp [accOf, chunkStrFrom]

theorem accOf_append (ns : String) (c : List (List String)) (d : List String) :
    accAppend (accOf ns c) (mkDatumStr (c.length + 1) d)
        (utf8Len (mkDatumStr (c.length + 1) d)) = accOf ns (c ++ [d]) := by
  have hb : (preambleStr ns ++ chunkStrFrom 1 c) ++ mkDatumStr (c.length + 1) d =
      preambleStr ns ++ chunkStrFrom 1 (c ++ [d]) := by
    rw [chunkStrFrom_append d c 1, String.append_assoc,
      show 1 + c.length = c.length + 1 by omega]
  simp only [accAppend, accOf, Acc.mk.injEq]
  refine ⟨hb, ?_, by simp⟩
  rw [← hb, utf8Len_append, utf8Len_append, utf8Len_append]

theorem accOf_byteLength_le (ns : String) (c : List (List String)) (M : Nat)
    (hsmall : ∀ d ∈ c, SmallDatum M d) (hlen : c.length ≤ REQ_DATUM_LIMIT) :
    (accOf ns c).byteLength ≤ utf8Len (preambleStr ns) + c.length * M := by
  show utf8Len (preambleStr ns ++ chunkStrFrom 1 c) ≤ _
  rw [utf8Len_append]
  have := chunkStrFrom_bound M c 1 hsmall (by omega)
    (by simp only [REQ_DATUM_LIMIT] at hlen; omega)
  omega

seal preambleStr in
seal esc in
seal freshChildAdd in
theorem chainAddDatum_empty_fits (ns : String) (d : List String) (M : Nat)
    (hd : SmallDatum M d)
    (hP : utf8Len (preambleStr ns) + REQ_DATUM_LIMIT * M ≤ REQ_BYTE_LIMIT) :
    chainAddDatum ns d [emptyAcc] = .ok [accOf ns [d]] := by
  have hbl : utf8Len (mkDatumStr 1 d) ≤ M := hd 1 (by omega) (by omega)
  simp only [chainAddDatum, accWithPreamble, emptyAcc, if_true]
  rw [if_neg]
  · have hrw := (accOf_nil ns).symm
    rw [hrw]
    exact congrArg (fun a => Except.ok [a]) (accOf_append ns [] d)
  · simp only [Bool.or_eq_true, not_or, decide_eq_true_eq]
    refine ⟨by simp [REQ_DATUM_LIMIT], ?_⟩
    simp only [REQ_BYTE_LIMIT, REQ_DATUM_LIMIT] at hP ⊢
    rw [show (0 + 1) = 1 from rfl]
    omega

seal preambleStr in
seal esc in
seal freshChildAdd in
theorem chainAddDatum_single_full (ns : String) (d : List String) (M : Nat)
    (c : List (List String)) (hd : SmallDatum M d) (h20 : c.length = REQ_DATUM_LIMIT)
    (hP : utf8Len (preambleStr ns) + REQ_DATUM_LIMIT * M ≤ REQ_BYTE_LIMIT) :
    chainAddDatum ns d [accOf ns c] = .ok [accOf ns c, accOf ns [d]] := by
  simp only [chainAddDatum]
  rw [accWithPreamble_of_ne ns (accOf_body_ne ns c)]
  rw [if_pos]
  · rw [freshChildAdd_fits ns d M hd hP]
  · simp only [Bool.or_eq_true, decide_eq_true_eq]
    exact Or.inl (by show REQ_DATUM_LIMIT ≤ (accOf ns c).datumCount; show _ ≤ c.length; omega)

seal preambleStr in
seal esc in
seal freshChildAdd in
theorem chainAddDatum_single_fits (ns : String) (d : List String) (M : Nat)
    (c : List (List String)) (hd : SmallDatum M d)
    (hsmall : ∀ d2 ∈ c, SmallDatum M d2)
    (hlt : c.length < REQ_DATUM_LIMIT)
    (hP : utf8Len (preambleStr ns) + REQ_DATUM_LIMIT * M ≤ REQ_BYTE_LIMIT) :
    chainAddDatum ns d [accOf ns c] = .ok [accOf ns (c ++ [d])] := by
  have hbyte : (accOf ns c).byteLength ≤ utf8Len (preambleStr ns) + c.length * M :=
    accOf_byteLength_le ns c M hsmall (by omega)
  have hbl : utf8Len (mkDatumStr ((accOf ns c).datumCount + 1) d) ≤ M := by
    show utf8Len (mkDatumStr (c.length + 1) d) ≤ M
    refine hd (c.length + 1) ?_ (by omega)
    simp only [REQ_DATUM_LIMIT] at hlt
    omega
  simp only [chainAddDatum]
  rw [accWithPreamble_of_ne ns (accOf_body_ne ns c)]
  rw [if_neg]
  · exact congrArg (fun a => Except.ok [a]) (accOf_append ns c d)
  · simp only [Bool.or_eq_true, not_or, decide_eq_true_eq]
    constructor
    · show ¬ (accOf ns c).datumCount ≥ REQ_DATUM_LIMIT
      show ¬ c.length ≥ REQ_DATUM_LIMIT
      omega
    · intro hcon
      have hlM : c.length * M + M ≤ REQ_DATUM_LIMIT * M := by
        have : c.length + 1 ≤ REQ_DATUM_LIMIT := by omega
        nlinarith
      omega

theorem chainAddDatum_spec (ns : String) (M : Nat) (d : List String)
    (rcs : List (List (List String))) (hInv : RcsInv M rcs) (hd : SmallDatum M d)
    (hP : utf8Len (preambleStr ns) + REQ_DATUM_LIMIT * M ≤ REQ_BYTE_LIMIT) :
    chainAddDatum ns d (chainOfRev ns rcs) = .ok (chainOfRev ns (chunkStep rcs d)) := by
  cases rcs with
  | nil =>
    show chainAddDatum ns d [emptyAcc] = _
    rw [chainAddDatum_empty_fits ns d M hd hP]
    rfl
  | cons c cs =>
    obtain ⟨hS, h1c, h20c, hcs⟩ := hInv
    have hsmallc : ∀ d2 ∈ c, SmallDatum M d2 := fun d2 hd2 => hS c (by simp) d2 hd2
    have hchain : chainOfRev ns (c :: cs) = (cs.map (accOf ns)).reverse ++ [accOf ns c] := by
      show ((c :: cs).map (accOf ns)).reverse = _
      simp
    have hfull : ∀ a ∈ (cs.map (accOf ns)).reverse,
        a.body ≠ "" ∧ REQ_DATUM_LIMIT ≤ a.datumCount := by
      intro a ha
      rw [List.mem_reverse, List.mem_map] at ha
      obtain ⟨c2, hc2, rfl⟩ := ha
      exact ⟨accOf_body_ne ns c2, by show _ ≤ c2.length; rw [hcs c2 hc2]⟩
    rw [hchain, chainAddDatum_full_front ns d _ [accOf ns c] (by simp) hfull]
    by_cases h20 : c.length = REQ_DATUM_LIMIT
    · rw [chainAddDatum_single_full ns d M c hd h20 hP]
      rw [show chunkStep (c :: cs) d = [d] :: c :: cs from by simp [chunkStep, h20]]
      show _ = Except.ok ((([d] :: c :: cs).map (accOf ns)).reverse)
      simp
    · rw [chainAddDatum_single_fits ns d M c hd hsmallc (by omega) hP]
      rw [show chunkStep (c :: cs) d = (c ++ [d]) :: cs from by simp [chunkStep, h20]]
      show _ = Except.ok ((((c ++ [d]) :: cs).map (accOf ns)).reverse)
      simp

theorem rcsInv_step (M : Nat) (rcs : List (List (List String))) (d : List String)
    (hInv : RcsInv M rcs) (hd : SmallDatum M d) : RcsInv M (chunkStep rcs d) := by
  obtain ⟨hS, hsh⟩ := hInv
  cases rcs with
  | nil =>
    refine ⟨?_, ?_⟩
    · intro c hc d2 hd2
      simp [chunkStep] at hc
      subst hc
      simp at hd2
      subst hd2
      exact hd
    · show 1 ≤ 1 ∧ 1 ≤ REQ_DATUM_LIMIT ∧ ∀ c2 ∈ ([] : List (List (List String))),
        c2.length = REQ_DATUM_LIMIT
      exact ⟨le_rfl, by simp [REQ_DATUM_LIMIT], by simp⟩
  | cons c cs =>
    obtain ⟨h1, h2, h3⟩ := hsh
    by_cases h20 : c.length = REQ_DATUM_LIMIT
    · rw [show chunkStep (c :: cs) d = [d] :: c :: cs from by simp [chunkStep, h20]]
      refine ⟨?_, ?_⟩
      · intro c2 hc2 d2 hd2
        rcases List.mem_cons.1 hc2 with rfl | hc2
        · simp at hd2
          subst hd2
          exact hd
        · exact hS c2 hc2 d2 hd2
      · refine ⟨le_rfl, by simp [REQ_DATUM_LIMIT], ?_⟩
        intro c2 hc2
        rcases List.mem_cons.1 hc2 with rfl | hc2
        · exact h20
        · exact h3 c2 hc2
    · rw [show chunkStep (c :: cs) d = (c ++ [d]) :: cs from by simp [chunkStep, h20]]
      refine ⟨?_, ?_⟩
      · intro c2 hc2 d2 hd2
        rcases List.mem_cons.1 hc2 with rfl | hc2
        · rcases List.mem_append.1 hd2 with hd2 | hd2
          · exact hS c (by simp) d2 hd2
          · simp at hd2
            subst hd2
            exact hd
        · exact hS c2 (by simp [hc2]) d2 hd2
      · refine ⟨by simp, ?_, h3⟩
        have h2n : c.length ≤ 20 := by simpa [REQ_DATUM_LIMIT] using h2
        have h20n : c.length ≠ 20 := by simpa [REQ_DATUM_LIMIT] using h20
        simp [REQ_DATUM_LIMIT]
        omega

def sumLens {α : Type} (rcs : List (List α)) : Nat := (rcs.map List.length).sum

theorem chunkStep_sum {α : Type} (rcs : List (List α)) (d : α) :
    sumLens (chunkStep rcs d) = sumLens rcs + 1 := by
  cases rcs with
  | nil => rfl
  | cons c cs =>
    by_cases h20 : c.length = REQ_DATUM_LIMIT <;>
      simp [chunkStep, h20, sumLens] <;> omega

theorem chunkStep_flat {α : Type} (rcs : List (List α)) (d : α) :
    (chunkStep rcs d).reverse.flatten = rcs.reverse.flatten ++ [d] := by
  cases rcs with
  | nil => rfl
  | cons c cs =>
    by_cases h20 : c.length = REQ_DATUM_LIMIT <;>
      simp [chunkStep, h20]

theorem foldl_chunkStep_inv (M : Nat) (ds : List (List String)) :
    ∀ rcs, RcsInv M rcs → (∀ d ∈ ds, SmallDatum M d) →
    RcsInv M (ds.foldl chunkStep rcs) := by
  induction ds with
  | nil => intro rcs h _; exact h
  | cons d ds ih =>
    intro rcs h hs
    exact ih (chunkStep rcs d) (rcsInv_step M rcs d h (hs d (by simp)))
      (fun d2 hd2 => hs d2 (by simp [hd2]))

theorem foldl_chunkStep_sum {α : Type} (ds : List α) :
    ∀ rcs : List (List α), sumLens (ds.foldl chunkStep rcs) = sumLens rcs + ds.length := by
  induction ds with
  | nil => intro rcs; simp
  | cons d ds ih =>
    intro rcs
    show sumLens (ds.foldl chunkStep (chunkStep rcs d)) = _
    rw [ih (chunkStep rcs d), chunkStep_sum]
    simp
    omega

theorem foldl_chunkStep_flat {α : Type} (ds : List α) :
    ∀ rcs : List (List α), (ds.foldl chunkStep rcs).reverse.flatten = rcs.reverse.flatten ++ ds := by
  induction ds with
  | nil => intro rcs; simp
  | cons d ds ih =>
    intro rcs
    show (ds.foldl chunkStep (chunkStep rcs d)).reverse.flatten = _
    rw [ih (chunkStep rcs d), chunkStep_flat]
    simp

theorem addSummaryMetric_okDatum (uL : String → String) (b : Builder) (m : SummaryMetric)
    (d : List String) (hok : summaryDatum uL b.pendingDatum m = .ok d) :
    addSummaryMetric uL b m = endDatum b d := by
  simp only [addSummaryMetric, hok]

theorem endDatum_ok (b : Builder) (p : List String) (ch : List Acc)
    (h : chainAddDatum b.ns p b.chain = .ok ch) :
    endDatum b p = .ok { b with chain := ch, pendingDatum := [] } := by
  simp only [endDatum, h]

theorem addMetric_via_datum (uL : String → String) (ns : String) (ch : List Acc)
    (m : Metric) (d : List String) (hok : datumOf uL m = .ok d) :
    addMetric uL { ns := ns, chain := ch, pendingDatum := [] } m =
      endDatum { ns := ns, chain := ch, pendingDatum := [] } d := by
  cases m with
  | single m => exact addSingleMetric_okDatum uL _ m d hok
  | summary m => exact addSummaryMetric_okDatum uL _ m d hok

theorem addMetrics_chunks (uL : String → String) (ns : String) (M : Nat)
    (hP : utf8Len (preambleStr ns) + REQ_DATUM_LIMIT * M ≤ REQ_BYTE_LIMIT) :
    ∀ (ms : List Metric) (rcs : List (List (List String))),
    (∀ m ∈ ms, ∃ d, datumOf uL m = .ok d) →
    (∀ m ∈ ms, SmallDatum M (datumOfD uL m)) →
    RcsInv M rcs →
    addMetrics uL { ns := ns, chain := chainOfRev ns rcs, pendingDatum := [] } ms =
      .ok { ns := ns, chain := chainOfRev ns ((ms.map (datumOfD uL)).foldl chunkStep rcs),
            pendingDatum := [] } := by
  intro ms
  induction ms with
  | nil =>
    intro rcs _ _ _
    simp [addMetrics]
  | cons m ms ih =>
    intro rcs hok hsm hInv
    obtain ⟨d, hd⟩ := hok m (by simp)
    have hdD : datumOfD uL m = d := by simp [datumOfD, hd]
    have hsmd : SmallDatum M d := hdD ▸ hsm m (by simp)
    have hstep : chainAddDatum ns d (chainOfRev ns rcs) =
        .ok (chainOfRev ns (chunkStep rcs d)) :=
      chainAddDatum_spec ns M d rcs hInv hsmd hP
    simp only [addMetrics]
    rw [addMetric_via_datum uL ns (chainOfRev ns rcs) m d hd]
    rw [endDatum_ok { ns := ns, chain := chainOfRev ns rcs, pendingDatum := [] } d
      (chainOfRev ns (chunkStep rcs d)) hstep]
    simp only [List.map_cons, List.foldl_cons, hdD]
    exact ih (chunkStep rcs d) (fun m2 hm2 => hok m2 (by simp [hm2]))
      (fun m2 hm2 => hsm m2 (by simp [hm2])) (rcsInv_step M rcs d hInv hsmd)

theorem sum_const_limit {α : Type} (cs : List (List α))
    (h : ∀ c ∈ cs, List.length c = REQ_DATUM_LIMIT) :
    sumLens cs = 20 * cs.length := by
  induction cs with
  | nil => rfl
  | cons c cs ih =>
    have hc : c.length = 20 := by simpa [REQ_DATUM_LIMIT] using h c (by simp)
    have ht := ih (fun c2 hc2 => h c2 (by simp [hc2]))
    simp [sumLens] at ht ⊢
    omega

theorem foldl_chunkStep_ne_nil {α : Type} (ds : List α) (h : ds ≠ []) :
    ds.foldl chunkStep [] ≠ [] := by
  intro hc
  have hs := foldl_chunkStep_sum ds ([] : List (List α))
  rw [hc] at hs
  simp [sumLens] at hs
  exact h (List.eq_nil_of_length_eq_zero hs.symm)

theorem chunks20_flatten {α : Type} (ds : List α) : (chunks20 ds).flatten = ds := by
  simp only [chunks20]
  rw [foldl_chunkStep_flat]
  simp

theorem chunks20_shape (M : Nat) (ds : List (List String))
    (h : ∀ d ∈ ds, SmallDatum M d) :
    ∀ c ∈ chunks20 ds, 1 ≤ c.length ∧ c.length ≤ REQ_DATUM_LIMIT := by
  have hInv := foldl_chunkStep_inv M ds [] ⟨by simp, trivial⟩ h
  intro c hc
  simp only [chunks20, List.mem_reverse] at hc
  obtain ⟨hS, hsh⟩ := hInv
  cases hfold : ds.foldl chunkStep [] with
  | nil =>
    rw [hfold] at hc
    simp at hc
  | cons c0 cs =>
    rw [hfold] at hc hsh
    obtain ⟨h1, h2, h3⟩ := hsh
    rcases List.mem_cons.1 hc with rfl | hc
    · exact ⟨h1, h2⟩
    · have := h3 c hc
      constructor
      · simp only [REQ_DATUM_LIMIT] at this
        omega
      · omega

theorem chunks20_small (M : Nat) (ds : List (List String))
    (h : ∀ d ∈ ds, SmallDatum M d) :
    ∀ c ∈ chunks20 ds, ∀ d ∈ c, SmallDatum M d := by
  have hInv := foldl_chunkStep_inv M ds [] ⟨by simp, trivial⟩ h
  intro c hc
  simp only [chunks20, List.mem_reverse] at hc
  exact hInv.1 c hc

theorem chunks20_length (M : Nat) (ds : List (List String))
    (h : ∀ d ∈ ds, SmallDatum M d) (hne : ds ≠ []) :
    (chunks20 ds).length = (ds.length + 19) / 20 := by
  have hInv := foldl_chunkStep_inv M ds [] ⟨by simp, trivial⟩ h
  have hsum := foldl_chunkStep_sum ds ([] : List (List (List String)))
  simp only [chunks20, List.length_reverse]
  cases hfold : ds.foldl chunkStep [] with
  | nil => exact absurd hfold (foldl_chunkStep_ne_nil ds hne)
  | cons c0 cs =>
    rw [hfold] at hsum hInv
    obtain ⟨hS, h1, h2, h3⟩ := hInv
    have hcs : sumLens cs = 20 * cs.length := sum_const_limit cs h3
    have hhead : sumLens (c0 :: cs) = c0.length + sumLens cs := by
      simp [sumLens]
    rw [hhead, hcs] at hsum
    simp only [REQ_DATUM_LIMIT] at h2
    simp only [sumLens, List.map_nil, List.sum_nil, Nat.zero_add] at hsum
    simp only [List.length_cons]
    omega

theorem chainOfRev_eq_map (ns : String) (rcs : List (List (List String)))
    (h : rcs ≠ []) : chainOfRev ns rcs = rcs.reverse.map (accOf ns) := by
  cases rcs with
  | nil => exact absurd rfl h
  | cons c cs => simp [chainOfRev]

/-- C2: adding any sequence of more than 20 valid metrics, each of whose
serialized datums is small enough that only the 20-datum count ceiling binds,
succeeds and leaves the chain holding exactly ceil(N/20) request bodies in
submission order. Every body holds at most 20 data points and at most 40960
bytes and is non-empty; the bodies serialize consecutive chunks of the datum
sequence — each datum lands in exactly one chunk, never split across two —
and within each body the member indices restart at 1 and increase
consecutively (`chunkStrFrom 1`). -/
theorem c2_batching (uL : String → String) (ns : String) (M : Nat) (ms : List Metric)
    (hN : REQ_DATUM_LIMIT < ms.length)
    (hok : ∀ m ∈ ms, ∃ d, datumOf uL m = .ok d)
    (hsm : ∀ m ∈ ms, SmallDatum M (datumOfD uL m))
    (hP : utf8Len (preambleStr ns) + REQ_DATUM_LIMIT * M ≤ REQ_BYTE_LIMIT) :
    ∃ b, addMetrics uL (newBuilder ns) ms = .ok b ∧
      b.pendingDatum = [] ∧
      b.chain = (chunks20 (ms.map (datumOfD uL))).map (accOf ns) ∧
      b.chain.length = (ms.length + 19) / 20 ∧
      (∀ a ∈ b.chain, a.datumCount ≤ REQ_DATUM_LIMIT ∧ a.byteLength ≤ REQ_BYTE_LIMIT ∧
        a.body ≠ "") ∧
      (∀ a ∈ b.chain, ∃ c ∈ chunks20 (ms.map (datumOfD uL)),
        a.body = preambleStr ns ++ chunkStrFrom 1 c ∧ a.datumCount = c.length) ∧
      (∀ c ∈ chunks20 (ms.map (datumOfD uL)), 1 ≤ c.length ∧ c.length ≤ REQ_DATUM_LIMIT) ∧
      (chunks20 (ms.map (datumOfD uL))).flatten = ms.map (datumOfD uL) := by
  have hds : ∀ d ∈ ms.map (datumOfD uL), SmallDatum M d := by
    intro d hd
    obtain ⟨m, hm, rfl⟩ := List.mem_map.1 hd
    exact hsm m hm
  have hmsne : ms.map (datumOfD uL) ≠ [] := by
    intro h
    have h2 := congrArg List.length h
    rw [List.length_map] at h2
    simp only [List.length_nil] at h2
    simp only [REQ_DATUM_LIMIT] at hN
    omega
  have hInv0 : RcsInv M ([] : List (List (List String))) := ⟨by simp, trivial⟩
  have hmain := addMetrics_chunks uL ns M hP ms [] hok hsm hInv0
  have hne := foldl_chunkStep_ne_nil (ms.map (datumOfD uL)) hmsne
  have hchain : chainOfRev ns ((ms.map (datumOfD uL)).foldl chunkStep []) =
      (chunks20 (ms.map (datumOfD uL))).map (accOf ns) := by
    rw [chainOfRev_eq_map ns _ hne]
    rfl
  refine ⟨⟨ns, chainOfRev ns ((ms.map (datumOfD uL)).foldl chunkStep []), []⟩,
    ?_, rfl, hchain, ?_, ?_, ?_, chunks20_shape M _ hds, chunks20_flatten _⟩
  · exact hmain
  · show (chainOfRev ns ((ms.map (datumOfD uL)).foldl chunkStep [])).length = _
    rw [hchain, List.length_map, chunks20_length M _ hds hmsne, List.length_map]
  · intro a ha
    rw [show (Builder.mk ns (chainOfRev ns ((ms.map (datumOfD uL)).foldl chunkStep []))
      []).chain = _ from rfl, hchain] at ha
    obtain ⟨c, hc, rfl⟩ := List.mem_map.1 ha
    have hsh := chunks20_shape M (ms.map (datumOfD uL)) hds c hc
    have hsm2 := chunks20_small M (ms.map (datumOfD uL)) hds c hc
    have hb := accOf_byteLength_le ns c M hsm2 hsh.2
    have hmul : c.length * M ≤ 20 * M :=
      Nat.mul_le_mul_right M (by simpa [REQ_DATUM_LIMIT] using hsh.2)
    refine ⟨hsh.2, ?_, accOf_body_ne ns c⟩
    simp only [REQ_DATUM_LIMIT, REQ_BYTE_LIMIT] at hP ⊢
    omega
  · intro a ha
    rw [show (Builder.mk ns (chainOfRev ns ((ms.map (datumOfD uL)).foldl chunkStep []))
      []).chain = _ from rfl, hchain] at ha
    obtain ⟨c, hc, rfl⟩ := List.mem_map.1 ha
    exact ⟨c, hc, rfl, rfl⟩

def mW : SingleMetric :=
  { name := "m", date := some "1970-01-01T00:00:00.000Z", unit := "u", resolution := none,
    value := 7, tags := [] }

def dW : List String :=
  ["MetricName=m", "Unit=u", "Timestamp=1970-01-01T00%3A00%3A00Z", "Value=7"]

theorem datumOf_mW : datumOf id (.single mW) = .ok dW := rfl

theorem c2_batching_witness :
    ∃ b, addMetrics id (newBuilder "telemetry") (List.replicate 21 (Metric.single mW)) =
        .ok b ∧
      b.pendingDatum = [] ∧
      b.chain = (chunks20 ((List.replicate 21 (Metric.single mW)).map (datumOfD id))).map
        (accOf "telemetry") ∧
      b.chain.length = ((List.replicate 21 (Metric.single mW)).length + 19) / 20 ∧
      (∀ a ∈ b.chain, a.datumCount ≤ REQ_DATUM_LIMIT ∧ a.byteLength ≤ REQ_BYTE_LIMIT ∧
        a.body ≠ "") ∧
      (∀ a ∈ b.chain,
        ∃ c ∈ chunks20 ((List.replicate 21 (Metric.single mW)).map (datumOfD id)),
        a.body = preambleStr "telemetry" ++ chunkStrFrom 1 c ∧ a.datumCount = c.length) ∧
      (∀ c ∈ chunks20 ((List.replicate 21 (Metric.single mW)).map (datumOfD id)),
        1 ≤ c.length ∧ c.length ≤ REQ_DATUM_LIMIT) ∧
      (chunks20 ((List.replicate 21 (Metric.single mW)).map (datumOfD id))).flatten =
        (List.replicate 21 (Metric.single mW)).map (datumOfD id) :=
  c2_batching id "telemetry" 200 (List.replicate 21 (Metric.single mW)) (by decide)
    (fun m hm => by rw [List.eq_of_mem_replicate hm]; exact ⟨dW, datumOf_mW⟩)
    (fun m hm => by rw [List.eq_of_mem_replicate hm]; decide)
    (by decide)

end CW
